import Mathlib

/-!
Verification of the ypbank transaction codec library.

A shallow embedding of the ypbank Rust crate: the transaction record model,
the three format codecs (length-framed binary, CSV table text, key-value
block text) and the reconciliation engine, together with theorems checking
the library's specification against this embedding.

Modelling conventions:
  * byte streams are `List Nat` (each element a byte value `< 256`);
  * decoded text is `List Char`; the UTF-8 encoding/decoding between the
    two is modelled explicitly, as the Rust code reads and writes bytes;
  * machine integers are `Nat`/`Int` with explicit two's-complement
    conversion where the code reinterprets bit patterns;
  * fallible operations return `Except BankFormatError`;
  * loops over streams use a fuel argument always called with
    `stream.length + 1`, which the proofs show is sufficient.
-/

set_option maxRecDepth 8192

deriving instance DecidableEq for Except

/-! ### Big-endian byte encoding (u32/u64/i64 `to_be_bytes` / `from_be_bytes`) -/

/-- Big-endian byte list of width `k` for `n` (wraps modulo `256 ^ k`,
mirroring Rust's `as u32` style truncation composed with `to_be_bytes`). -/

def toBe : Nat → Nat → List Nat
  | 0, _ => []
  | k + 1, n => toBe k (n / 256) ++ [n % 256]

/-- Big-endian interpretation of a byte list, as in `from_be_bytes`. -/

def fromBe (bs : List Nat) : Nat := bs.foldl (fun a b => a * 256 + b) 0

/-- Reading exactly `n` bytes from a stream: `Read::read_exact` succeeds iff
at least `n` bytes remain; on success it returns them with the rest. -/

def readExact (n : Nat) (s : List Nat) : Option (List Nat × List Nat) :=
  if n ≤ s.length then some (s.take n, s.drop n) else none

/-! ### Two's-complement reinterpretation (`as u64` / `as i64`) -/

/-- `x as u64` for a signed 64-bit value: the two's-complement bit pattern. -/

def toU64 (x : Int) : Nat := (x % (2 ^ 64 : Int)).toNat

/-- `u64 as i64`: reinterpret a 64-bit pattern as a signed value. -/

def fromI64 (n : Nat) : Int := if n < 2 ^ 63 then (n : Int) else (n : Int) - 2 ^ 64

/-! ### Decimal rendering and parsing (`to_string` / `str::parse`) -/

/-- One decimal digit as a character (used only for `d < 10`). -/

def digitChar (d : Nat) : Char :=
  match d with
  | 0 => '0' | 1 => '1' | 2 => '2' | 3 => '3' | 4 => '4'
  | 5 => '5' | 6 => '6' | 7 => '7' | 8 => '8' | _ => '9'

/-- Decimal digit value of a character, if it is a digit. -/

def digitVal (c : Char) : Option Nat :=
  if 48 ≤ c.toNat ∧ c.toNat ≤ 57 then some (c.toNat - 48) else none

/-- Fuel-indexed digit rendering loop (structural recursion so that the
kernel can evaluate it). -/

def natToCharsGo : Nat → Nat → List Char
  | 0, _ => []
  | fuel + 1, n =>
    if n < 10 then [digitChar n]
    else natToCharsGo fuel (n / 10) ++ [digitChar (n % 10)]

/-- Decimal rendering of a natural number, as Rust's `Display` for unsigned
integers produces it. -/

def natToChars (n : Nat) : List Char := natToCharsGo (n + 1) n

/-- Decimal rendering of an integer, as Rust's `Display` for signed integers. -/

def intToChars (x : Int) : List Char :=
  if x < 0 then '-' :: natToChars x.natAbs else natToChars x.toNat

/-- Digit-folding core of `str::parse` for unsigned integers. -/

def parseNatGo : List Char → Nat → Option Nat
  | [], acc => some acc
  | c :: cs, acc =>
    match digitVal c with
    | some d => parseNatGo cs (acc * 10 + d)
    | none => none

/-- Digit-string parsing: all characters must be digits and the string
must be non-empty. -/

def parseNatRaw (cs : List Char) : Option Nat :=
  match cs with
  | [] => none
  | _ => parseNatGo cs 0

/-- `str::parse::<u64>`: optional leading `+`, digits, range check. -/

def parseU64 (cs : List Char) : Option Nat :=
  let body := match cs with
    | c :: r => if c = '+' then r else cs
    | [] => cs
  match parseNatRaw body with
  | some n => if n < 2 ^ 64 then some n else none
  | none => none

/-- `str::parse::<i64>`: optional sign, digits, i64 range check. -/

def parseI64 (cs : List Char) : Option Int :=
  match cs with
  | c :: r =>
    if c = '-' then
      match parseNatRaw r with
      | some n => if n ≤ 2 ^ 63 then some (-(n : Int)) else none
      | none => none
    else if c = '+' then
      match parseNatRaw r with
      | some n => if n < 2 ^ 63 then some (n : Int) else none
      | none => none
    else
      match parseNatRaw cs with
      | some n => if n < 2 ^ 63 then some (n : Int) else none
      | none => none
  | [] => none

/-! ### UTF-8 (Rust `String` bytes: `as_bytes` / `String::from_utf8`) -/

/-- UTF-8 encoding of one character (1 to 4 bytes by scalar-value range). -/

def encodeChar (c : Char) : List Nat :=
  let n := c.toNat
  if n < 0x80 then [n]
  else if n < 0x800 then [0xC0 + n / 64, 0x80 + n % 64]
  else if n < 0x10000 then [0xE0 + n / 4096, 0x80 + n / 64 % 64, 0x80 + n % 64]
  else [0xF0 + n / 262144, 0x80 + n / 4096 % 64, 0x80 + n / 64 % 64, 0x80 + n % 64]

/-- UTF-8 bytes of a character sequence, as `str::as_bytes`. -/

def utf8Encode (cs : List Char) : List Nat := (cs.map encodeChar).flatten

/-- Decode one UTF-8 sequence from the head of a byte stream, validating
continuation bytes, overlong encodings, surrogates and the scalar range. -/

def decodeChar : List Nat → Option (Char × List Nat)
  | [] => none
  | b :: rest =>
    if b < 0x80 then
      if h : Nat.isValidChar b then some (Char.ofNatAux b h, rest) else none
    else if b < 0xC0 then none
    else if b < 0xE0 then
      match rest with
      | b1 :: rest' =>
        if _hb : 0x80 ≤ b1 ∧ b1 < 0xC0 then
          if h : 0x80 ≤ (b - 0xC0) * 64 + (b1 - 0x80) ∧
              Nat.isValidChar ((b - 0xC0) * 64 + (b1 - 0x80)) then
            some (Char.ofNatAux _ h.2, rest')
          else none
        else none
      | [] => none
    else if b < 0xF0 then
      match rest with
      | b1 :: b2 :: rest' =>
        if _hb : (0x80 ≤ b1 ∧ b1 < 0xC0) ∧ (0x80 ≤ b2 ∧ b2 < 0xC0) then
          if h : 0x800 ≤ (b - 0xE0) * 4096 + (b1 - 0x80) * 64 + (b2 - 0x80) ∧
              Nat.isValidChar ((b - 0xE0) * 4096 + (b1 - 0x80) * 64 + (b2 - 0x80)) then
            some (Char.ofNatAux _ h.2, rest')
          else none
        else none
      | _ => none
    else if b < 0xF8 then
      match rest with
      | b1 :: b2 :: b3 :: rest' =>
        if _hb : (0x80 ≤ b1 ∧ b1 < 0xC0) ∧ (0x80 ≤ b2 ∧ b2 < 0xC0) ∧
            (0x80 ≤ b3 ∧ b3 < 0xC0) then
          if h : 0x10000 ≤ (b - 0xF0) * 262144 + (b1 - 0x80) * 4096 +
                (b2 - 0x80) * 64 + (b3 - 0x80) ∧
              Nat.isValidChar ((b - 0xF0) * 262144 + (b1 - 0x80) * 4096 +
                (b2 - 0x80) * 64 + (b3 - 0x80)) then
            some (Char.ofNatAux _ h.2, rest')
          else none
        else none
      | _ => none
    else none

/-- Fuel-indexed whole-stream UTF-8 decoding loop. -/

def utf8DecodeGo : Nat → List Nat → Option (List Char)
  | _, [] => some []
  | 0, _ :: _ => none
  | fuel + 1, b :: rest =>
    match decodeChar (b :: rest) with
    | some (c, rest') => (utf8DecodeGo fuel rest').map (c :: ·)
    | none => none

/-- `String::from_utf8`: decode an entire byte buffer, failing on any
invalid sequence. -/

def utf8Decode (bs : List Nat) : Option (List Char) :=
  utf8DecodeGo (bs.length + 1) bs

/-! ### Text helpers (`str::trim`, `str::trim_matches`, `split_once`, `BufRead::lines`) -/

/-- Whitespace test; models Rust `char::is_whitespace` on the whitespace
characters that can actually occur at the trimming boundaries exercised by
this library (ASCII space, tab, line feed, carriage return). -/

def isWsChar (c : Char) : Bool := c = ' ' || c = '\t' || c = '\n' || c = '\r'

/-- `str::trim`: drop whitespace from both ends. -/

def trimChars (cs : List Char) : List Char :=
  ((cs.dropWhile isWsChar).reverse.dropWhile isWsChar).reverse

/-- `str::trim_matches('"')`: drop all leading and trailing double quotes. -/

def trimQuotes (cs : List Char) : List Char :=
  ((cs.dropWhile (· = '"')).reverse.dropWhile (· = '"')).reverse

/-- `str::split_once(':')`: split at the first colon, if any. -/

def splitOnceColon : List Char → Option (List Char × List Char)
  | [] => none
  | c :: cs =>
    if c = ':' then some ([], cs)
    else (splitOnceColon cs).map (fun p => (c :: p.1, p.2))

/-- Drop one trailing carriage return, as `BufRead::lines` does per line. -/

def stripCr (cs : List Char) : List Char :=
  if cs.getLast? = some '\r' then cs.dropLast else cs

/-- Accumulator-based splitting of a character stream into lines at `\n`. -/

def splitLinesGo : List Char → List Char → List (List Char)
  | acc, [] => [stripCr acc.reverse]
  | acc, c :: cs =>
    if c = '\n' then
      if cs = [] then [stripCr acc.reverse]
      else stripCr acc.reverse :: splitLinesGo [] cs
    else splitLinesGo (c :: acc) cs

/-- `BufRead::lines` over a whole in-memory stream: lines split at `\n`,
each with a trailing `\r` removed; no final empty line after a trailing
newline; the empty stream has no lines. -/

def splitLines (s : List Char) : List (List Char) :=
  if s = [] then [] else splitLinesGo [] s

/-- Join lines, terminating each with `\n` (how the writers emit lines). -/

def joinLines (ls : List (List Char)) : List Char := (ls.map (· ++ ['\n'])).flatten

/-! ### Record model (`lib.rs`: `Transaction`, `TxType`, `Status`) -/

/-- The type of a bank transaction. -/

inductive TxType
  | Deposit
  | Transfer
  | Withdrawal

deriving DecidableEq

/-- The status of a bank transaction. -/

inductive Status
  | Success
  | Failure
  | Pending

deriving DecidableEq

/-- One bank transaction record. Rust's `u64`/`i64` fields are `Nat`/`Int`
here, constrained by `WFTx`; the `String` description is its character
sequence. -/

structure Transaction where
  tx_id : Nat
  tx_type : TxType
  from_user_id : Int
  to_user_id : Int
  amount : Int
  timestamp : Int
  status : Status
  description : List Char

deriving DecidableEq

/-- Range constraints that Rust's machine-integer types enforce by
construction. -/

def WFTx (t : Transaction) : Prop :=
  t.tx_id < 2 ^ 64 ∧
  -(2 ^ 63) ≤ t.from_user_id ∧ t.from_user_id < 2 ^ 63 ∧
  -(2 ^ 63) ≤ t.to_user_id ∧ t.to_user_id < 2 ^ 63 ∧
  -(2 ^ 63) ≤ t.amount ∧ t.amount < 2 ^ 63 ∧
  -(2 ^ 63) ≤ t.timestamp ∧ t.timestamp < 2 ^ 63

instance (t : Transaction) : Decidable (WFTx t) := by
  unfold WFTx
  infer_instance

/-- `error.rs`: all errors of parsing/serialization. Each variant carries
its message text (`io::Error`, `csv::Error` and the format strings are
reduced to the message they display). -/

inductive BankFormatError
  | Io (msg : String)
  | Csv (msg : String)
  | Parse (msg : String)
  | InvalidBinary (msg : String)

deriving DecidableEq

/-- `Display for TxType`: the canonical textual token. -/

def txTypeToken : TxType → List Char
  | .Deposit => "DEPOSIT".data
  | .Transfer => "TRANSFER".data
  | .Withdrawal => "WITHDRAWAL".data

/-- `Display for Status`: the canonical textual token. -/

def statusToken : Status → List Char
  | .Success => "SUCCESS".data
  | .Failure => "FAILURE".data
  | .Pending => "PENDING".data

/-- Textual token to `TxType` (`parse_tx_type` / the csv `match`). -/

def txTypeOfToken (s : List Char) : Except BankFormatError TxType :=
  if s = "DEPOSIT".data then .ok .Deposit
  else if s = "TRANSFER".data then .ok .Transfer
  else if s = "WITHDRAWAL".data then .ok .Withdrawal
  else .error (.Parse ("unknown tx_type: " ++ String.mk s))

/-- Textual token to `Status` (`parse_status` / the csv `match`). -/

def statusOfToken (s : List Char) : Except BankFormatError Status :=
  if s = "SUCCESS".data then .ok .Success
  else if s = "FAILURE".data then .ok .Failure
  else if s = "PENDING".data then .ok .Pending
  else .error (.Parse ("unknown status: " ++ String.mk s))

/-! ### Binary codec (`bin_format.rs`) -/

/-- The fixed 4-byte magic token `YPBN`. -/

def MAGIC : List Nat := [0x59, 0x50, 0x42, 0x4E]

/-- `TX_TYPE` byte code. -/

def txTypeByte : TxType → Nat
  | .Deposit => 0
  | .Transfer => 1
  | .Withdrawal => 2

/-- `STATUS` byte code. -/

def statusByte : Status → Nat
  | .Success => 0
  | .Failure => 1
  | .Pending => 2

/-- Byte code to `TxType`. -/

def txTypeOfByte (b : Nat) : Option TxType :=
  if b = 0 then some .Deposit
  else if b = 1 then some .Transfer
  else if b = 2 then some .Withdrawal
  else none

/-- Byte code to `Status`. -/

def statusOfByte (b : Nat) : Option Status :=
  if b = 0 then some .Success
  else if b = 1 then some .Failure
  else if b = 2 then some .Pending
  else none

/-- UTF-8 bytes of a transaction's description (`description.as_bytes()`). -/

def descBytes (t : Transaction) : List Nat := utf8Encode t.description

/-- The body of one binary record (everything after magic and size). -/

def binBody (t : Transaction) : List Nat :=
  toBe 8 t.tx_id ++ [txTypeByte t.tx_type] ++
  toBe 8 (toU64 t.from_user_id) ++ toBe 8 (toU64 t.to_user_id) ++
  toBe 8 (toU64 t.amount) ++ toBe 8 (toU64 t.timestamp) ++
  [statusByte t.status] ++ toBe 4 (descBytes t).length ++ descBytes t

/-- One binary record with an explicit declared `record_size` field. -/

def binRecordWithSize (sz : Nat) (t : Transaction) : List Nat :=
  MAGIC ++ toBe 4 sz ++ binBody t

/-- `BinFormat::write_all` for one record:
`record_size = 8+1+8+8+8+8+1+4+desc_len`. -/

def binWriteRecord (t : Transaction) : List Nat :=
  binRecordWithSize (8 + 1 + 8 + 8 + 8 + 8 + 1 + 4 + (descBytes t).length) t

/-- `BinFormat::write_all`. -/

def binWriteAll (records : List Transaction) : List Nat :=
  (records.map binWriteRecord).flatten

/-- First byte of a one-byte read. -/

def head1 (l : List Nat) : Nat := l.headI

/-- `io::Error` display text of the `read_exact` end-of-stream failure. -/

def eofMsg : String := "failed to fill whole buffer"

/-- Debug rendering of the magic bytes (`{:?}` on `[u8; 4]`). -/

def showBytes (bs : List Nat) : List Char :=
  '[' :: (List.intersperse ", ".data (bs.map natToChars)).flatten ++ [']']

/-- `BinFormat::read_all` loop body. One iteration per record; `read_exact`
on the magic returning `UnexpectedEof` (any short read, 0 to 3 bytes
available) breaks the loop; every later short read is a fatal `Io` error.
The fuel is always called with `stream.length + 1`, which suffices since
every iteration consumes at least the 4 magic bytes. -/

def binReadGo : Nat → List Nat → Except BankFormatError (List Transaction)
  | 0, _ => .error (.Io "internal: fuel exhausted")
  | fuel + 1, s0 =>
    match readExact 4 s0 with
    | none => .ok []
    | some (magic, s1) =>
      if magic ≠ MAGIC then
        .error (.InvalidBinary ("invalid magic: " ++ String.mk (showBytes magic)))
      else
        match readExact 4 s1 with
        | none => .error (.Io eofMsg)
        | some (szb, s2) =>
          if fromBe szb < 46 then
            .error (.InvalidBinary ("record_size " ++ String.mk (natToChars (fromBe szb)) ++
              " is too small, minimum is 46 bytes"))
          else
            match readExact 8 s2 with
            | none => .error (.Io eofMsg)
            | some (idb, s3) =>
              match readExact 1 s3 with
              | none => .error (.Io eofMsg)
              | some (tb, s4) =>
                match txTypeOfByte (head1 tb) with
                | none =>
                  .error (.InvalidBinary ("unknown tx_type byte: " ++
                    String.mk (natToChars (head1 tb))))
                | some tx_type =>
                  match readExact 8 s4 with
                  | none => .error (.Io eofMsg)
                  | some (fromb, s5) =>
                    match readExact 8 s5 with
                    | none => .error (.Io eofMsg)
                    | some (tob, s6) =>
                      match readExact 8 s6 with
                      | none => .error (.Io eofMsg)
                      | some (amtb, s7) =>
                        match readExact 8 s7 with
                        | none => .error (.Io eofMsg)
                        | some (tsb, s8) =>
                          match readExact 1 s8 with
                          | none => .error (.Io eofMsg)
                          | some (stb, s9) =>
                            match statusOfByte (head1 stb) with
                            | none =>
                              .error (.InvalidBinary ("unknown status byte: " ++
                                String.mk (natToChars (head1 stb))))
                            | some status =>
                              match readExact 4 s9 with
                              | none => .error (.Io eofMsg)
                              | some (dlb, s10) =>
                                if fromBe dlb > 4096 then
                                  .error (.InvalidBinary ("description length " ++
                                    String.mk (natToChars (fromBe dlb)) ++
                                    " exceeds maximum allowed 4096"))
                                else
                                  match readExact (fromBe dlb) s10 with
                                  | none => .error (.Io eofMsg)
                                  | some (db, s11) =>
                                    match utf8Decode db with
                                    | none =>
                                      .error (.InvalidBinary
                                        "invalid utf-8 sequence in description")
                                    | some desc =>
                                      match binReadGo fuel s11 with
                                      | .ok rest =>
                                        .ok ({ tx_id := fromBe idb, tx_type,
                                               from_user_id := fromI64 (fromBe fromb),
                                               to_user_id := fromI64 (fromBe tob),
                                               amount := fromI64 (fromBe amtb),
                                               timestamp := fromI64 (fromBe tsb),
                                               status, description := desc } :: rest)
                                      | .error e => .error e

/-- `BinFormat::read_all`. -/

def binReadAll (s : List Nat) : Except BankFormatError (List Transaction) :=
  binReadGo (s.length + 1) s

/-- Representability in the binary format: machine-integer ranges hold and
the UTF-8 description is at most 4096 bytes. -/

def binRepr (t : Transaction) : Prop := WFTx t ∧ (descBytes t).length ≤ 4096

instance (t : Transaction) : Decidable (binRepr t) := by
  unfold binRepr
  infer_instance

/-- A binary record laid out like `binRecordWithSize` but with an arbitrary
declared `descLen` field and no description bytes following it (the decoder
rejects before reading them when the length is oversized). -/

def binRecordWithDescLen (sz dl : Nat) (t : Transaction) : List Nat :=
  MAGIC ++ toBe 4 sz ++ toBe 8 t.tx_id ++ [txTypeByte t.tx_type] ++
  toBe 8 (toU64 t.from_user_id) ++ toBe 8 (toU64 t.to_user_id) ++
  toBe 8 (toU64 t.amount) ++ toBe 8 (toU64 t.timestamp) ++
  [statusByte t.status] ++ toBe 4 dl

/-! ### Key-value block-text codec (`txt_format.rs`) -/

/-- Insert into the working `HashMap<String, String>`, overwriting an
existing key. -/

def kvInsert (m : List (List Char × List Char)) (k v : List Char) :
    List (List Char × List Char) :=
  match m with
  | [] => [(k, v)]
  | (k', v') :: rest => if k' = k then (k, v) :: rest else (k', v') :: kvInsert rest k v

/-- Lookup in the working map. -/

def kvLookup (m : List (List Char × List Char)) (k : List Char) : Option (List Char) :=
  match m with
  | [] => none
  | (k', v') :: rest => if k' = k then some v' else kvLookup rest k

/-- `parse_map`'s `get` closure: a missing key is a
`Parse ("missing field: KEY")` error. -/

def kvGet (m : List (List Char × List Char)) (k : List Char) :
    Except BankFormatError (List Char) :=
  match kvLookup m k with
  | some v => .ok v
  | none => .error (.Parse ("missing field: " ++ String.mk k))

/-- Field fetch-and-parse for `u64` fields; an unparsable value is a
`Parse` error naming the key. -/

def kvGetU64 (m : List (List Char × List Char)) (k : List Char) :
    Except BankFormatError Nat :=
  match kvGet m k with
  | .error e => .error e
  | .ok s =>
    match parseU64 s with
    | some n => .ok n
    | none => .error (.Parse (String.mk k))

/-- Field fetch-and-parse for `i64` fields. -/

def kvGetI64 (m : List (List Char × List Char)) (k : List Char) :
    Except BankFormatError Int :=
  match kvGet m k with
  | .error e => .error e
  | .ok s =>
    match parseI64 s with
    | some n => .ok n
    | none => .error (.Parse (String.mk k))

/-- `TxtFormat::parse_map`: build a `Transaction` from the accumulated map;
fields are fetched and parsed in the struct-literal evaluation order of the
source, so the first failing field determines the error. -/

def txtParseMap (m : List (List Char × List Char)) :
    Except BankFormatError Transaction :=
  match kvGetU64 m "TX_ID".data with
  | .error e => .error e
  | .ok tx_id =>
    match kvGet m "TX_TYPE".data with
    | .error e => .error e
    | .ok ts =>
      match txTypeOfToken ts with
      | .error e => .error e
      | .ok tx_type =>
        match kvGetI64 m "FROM_USER_ID".data with
        | .error e => .error e
        | .ok from_user_id =>
          match kvGetI64 m "TO_USER_ID".data with
          | .error e => .error e
          | .ok to_user_id =>
            match kvGetI64 m "AMOUNT".data with
            | .error e => .error e
            | .ok amount =>
              match kvGetI64 m "TIMESTAMP".data with
              | .error e => .error e
              | .ok timestamp =>
                match kvGet m "STATUS".data with
                | .error e => .error e
                | .ok ss =>
                  match statusOfToken ss with
                  | .error e => .error e
                  | .ok status =>
                    match kvGet m "DESCRIPTION".data with
                    | .error e => .error e
                    | .ok description =>
                      .ok { tx_id, tx_type, from_user_id, to_user_id,
                            amount, timestamp, status, description }

/-- `TxtFormat::read_all` line loop: `#` lines flush a non-empty
accumulator, `KEY: value` lines insert (key trimmed; value trimmed then
stripped of surrounding quotes), other lines are ignored; end of input
flushes a pending non-empty accumulator. -/

def txtGo : List (List Char) → List (List Char × List Char) →
    Except BankFormatError (List Transaction)
  | [], current =>
    if current = [] then .ok []
    else
      match txtParseMap current with
      | .error e => .error e
      | .ok t => .ok [t]
  | line :: restLines, current =>
    if (trimChars line).head? = some '#' then
      if current = [] then txtGo restLines []
      else
        match txtParseMap current with
        | .error e => .error e
        | .ok t =>
          match txtGo restLines [] with
          | .error e => .error e
          | .ok rest => .ok (t :: rest)
    else
      match splitOnceColon (trimChars line) with
      | some (k, v) =>
        txtGo restLines (kvInsert current (trimChars k) (trimQuotes (trimChars v)))
      | none => txtGo restLines current

/-- `TxtFormat::read_all` on decoded text. -/

def txtReadChars (s : List Char) : Except BankFormatError (List Transaction) :=
  txtGo (splitLines s) []

/-- The `# Record N (<kind>)` comment line of `TxtFormat::write_all`. -/

def txtCommentLine (i : Nat) (t : Transaction) : List Char :=
  "# Record ".data ++ natToChars i ++ " (".data ++ txTypeToken t.tx_type ++ ")".data

/-- The eight `KEY: value` lines (description quoted) and the blank
separator line that `TxtFormat::write_all` emits after the comment. -/

def txtBodyLines (t : Transaction) : List (List Char) :=
  [ "TX_ID: ".data ++ natToChars t.tx_id,
    "TX_TYPE: ".data ++ txTypeToken t.tx_type,
    "FROM_USER_ID: ".data ++ intToChars t.from_user_id,
    "TO_USER_ID: ".data ++ intToChars t.to_user_id,
    "AMOUNT: ".data ++ intToChars t.amount,
    "TIMESTAMP: ".data ++ intToChars t.timestamp,
    "STATUS: ".data ++ statusToken t.status,
    "DESCRIPTION: \"".data ++ t.description ++ "\"".data,
    [] ]

/-- The ten output lines of `TxtFormat::write_all` for record number `i`
(1-based). -/

def txtWriteRecord (i : Nat) (t : Transaction) : List (List Char) :=
  txtCommentLine i t :: txtBodyLines t

/-- Lines of `TxtFormat::write_all` for a record list, numbering from `i`. -/

def txtWriteLines (i : Nat) : List Transaction → List (List Char)
  | [] => []
  | t :: L => txtWriteRecord i t ++ txtWriteLines (i + 1) L

/-- `TxtFormat::write_all` on decoded text. -/

def txtWriteChars (L : List Transaction) : List Char :=
  joinLines (txtWriteLines 1 L)

/-- Representability in the block-text format: machine ranges hold, and the
description contains no line breaks and no leading or trailing quote (the
reader's quote stripping and line framing would alter those). -/

def txtRepr (t : Transaction) : Prop :=
  WFTx t ∧ '\n' ∉ t.description ∧ '\r' ∉ t.description ∧
  t.description.head? ≠ some '"' ∧ t.description.getLast? ≠ some '"'

instance (t : Transaction) : Decidable (txtRepr t) := by
  unfold txtRepr
  infer_instance

/-- The accumulator that the reader builds from the eight key-value lines
the writer emits for record `t`. -/

def txMapOf (t : Transaction) : List (List Char × List Char) :=
  kvInsert (kvInsert (kvInsert (kvInsert (kvInsert (kvInsert (kvInsert (kvInsert []
    "TX_ID".data (natToChars t.tx_id))
    "TX_TYPE".data (txTypeToken t.tx_type))
    "FROM_USER_ID".data (intToChars t.from_user_id))
    "TO_USER_ID".data (intToChars t.to_user_id))
    "AMOUNT".data (intToChars t.amount))
    "TIMESTAMP".data (intToChars t.timestamp))
    "STATUS".data (statusToken t.status))
    "DESCRIPTION".data t.description

/-! ### Table-text codec (`csv_format.rs` over the `csv` crate)

The `csv` crate itself is an external dependency, not part of this
repository's sources. Its reader/writer are modelled from the spec:
standard delimited-text quoting (RFC-4180 style) with `,` delimiter, `\n`
terminator on write, quotes doubled inside quoted fields, fields quoted
when they contain a delimiter, quote, or line break; the reader skips the
header record (`has_headers` default) and requires every record to have
the header's field count (`flexible = false`). The mapping between a
string record and `Transaction` follows `csv_format.rs` exactly. -/

/-- Modelled from the spec: the csv crate quotes a field when necessary. -/

def csvNeedsQuote (f : List Char) : Bool :=
  f.any (fun c => c = ',' || c = '"' || c = '\n' || c = '\r')

/-- Modelled from the spec: quotes are doubled inside a quoted field. -/

def csvEscapeField (f : List Char) : List Char :=
  f.flatMap (fun c => if c = '"' then ['"', '"'] else [c])

/-- Modelled from the spec: one written field. -/

def csvWriteField (f : List Char) : List Char :=
  if csvNeedsQuote f then '"' :: (csvEscapeField f ++ ['"']) else f

/-- Modelled from the spec: one written record, `,`-separated,
`\n`-terminated. -/

def csvWriteRow (fs : List (List Char)) : List Char :=
  (List.intersperse [','] (fs.map csvWriteField)).flatten ++ ['\n']

/-- The fixed header record of `CsvFormat::write_all`. -/

def csvHeader : List (List Char) :=
  ["tx_id".data, "tx_type".data, "from_user_id".data, "to_user_id".data,
   "amount".data, "timestamp".data, "status".data, "description".data]

/-- The field strings of one data record, as `CsvFormat::write_all` emits
them. -/

def csvRowOf (t : Transaction) : List (List Char) :=
  [natToChars t.tx_id, txTypeToken t.tx_type, intToChars t.from_user_id,
   intToChars t.to_user_id, intToChars t.amount, intToChars t.timestamp,
   statusToken t.status, t.description]

/-- `CsvFormat::write_all` on decoded text. -/

def csvWriteChars (L : List Transaction) : List Char :=
  ((csvHeader :: L.map csvRowOf).map csvWriteRow).flatten

/-- Modelled from the spec: parse the tail of a quoted field (after its
opening quote): a doubled quote is a literal quote, a single closing quote
ends the field. -/

def csvParseQuoted : List Char → Option (List Char × List Char)
  | [] => none
  | c :: rest =>
    if c = '"' then
      match rest with
      | c2 :: r2 =>
        if c2 = '"' then (csvParseQuoted r2).map (fun p => ('"' :: p.1, p.2))
        else some ([], rest)
      | [] => some ([], [])
    else (csvParseQuoted rest).map (fun p => (c :: p.1, p.2))

/-- Modelled from the spec: field characters that end an unquoted field. -/

def csvStop (c : Char) : Bool := c = ',' || c = '\n' || c = '\r'

/-- Modelled from the spec: parse one field. -/

def csvParseField (s : List Char) : Option (List Char × List Char) :=
  if s.head? = some '"' then csvParseQuoted s.tail
  else some (s.takeWhile (fun c => !csvStop c), s.dropWhile (fun c => !csvStop c))

/-- Modelled from the spec: parse one record up to and including its
terminator (or end of stream). -/

def csvParseRow : Nat → List Char → Option (List (List Char) × List Char)
  | 0, _ => none
  | fuel + 1, s =>
    match csvParseField s with
    | none => none
    | some (f, rest) =>
      match rest with
      | [] => some ([f], [])
      | c :: r =>
        if c = ',' then (csvParseRow fuel r).map (fun p => (f :: p.1, p.2))
        else if c = '\n' then some ([f], r)
        else if c = '\r' then
          match r with
          | [] => some ([f], [])
          | c2 :: r2 => if c2 = '\n' then some ([f], r2) else some ([f], c2 :: r2)
        else none

/-- Modelled from the spec: parse all raw records; empty lines are not
records. -/

def csvParseRows : Nat → List Char → Option (List (List (List Char)))
  | _, [] => some []
  | 0, _ :: _ => none
  | fuel + 1, c :: s =>
    if c = '\n' ∨ c = '\r' then csvParseRows fuel s
    else
      match csvParseRow ((c :: s).length + 1) (c :: s) with
      | none => none
      | some (row, rest) => (csvParseRows fuel rest).map (row :: ·)

/-- `CsvFormat::read_all`'s per-record conversion: indexes the eight
fields and parses each with the source's error messages. -/

def csvRecordToTx (r : List (List Char)) : Except BankFormatError Transaction :=
  match r with
  | [f0, f1, f2, f3, f4, f5, f6, f7] =>
    match parseU64 f0 with
    | none => .error (.Parse "tx_id")
    | some tx_id =>
      match txTypeOfToken f1 with
      | .error e => .error e
      | .ok tx_type =>
        match parseI64 f2 with
        | none => .error (.Parse "from_user_id")
        | some from_user_id =>
          match parseI64 f3 with
          | none => .error (.Parse "to_user_id")
          | some to_user_id =>
            match parseI64 f4 with
            | none => .error (.Parse "amount")
            | some amount =>
              match parseI64 f5 with
              | none => .error (.Parse "timestamp")
              | some timestamp =>
                match statusOfToken f6 with
                | .error e => .error e
                | .ok status =>
                  .ok { tx_id, tx_type, from_user_id, to_user_id,
                        amount, timestamp, status, description := f7 }
  | _ => .error (.Parse "record length mismatch")

/-- Sequential conversion of the data records (fail fast); a record whose
field count differs from the header's is a csv-reader error surfaced as
`Parse` by `read_all`'s `map_err`. -/

def csvConvertRows (n : Nat) : List (List (List Char)) →
    Except BankFormatError (List Transaction)
  | [] => .ok []
  | r :: rs =>
    if r.length = n then
      match csvRecordToTx r with
      | .error e => .error e
      | .ok t =>
        match csvConvertRows n rs with
        | .error e => .error e
        | .ok ts => .ok (t :: ts)
    else .error (.Parse "record length mismatch")

/-- `CsvFormat::read_all` on decoded text: the first record is the header
and is never decoded as data. -/

def csvReadChars (s : List Char) : Except BankFormatError (List Transaction) :=
  match csvParseRows (s.length + 1) s with
  | none => .error (.Parse "malformed csv")
  | some [] => .ok []
  | some (hdr :: data) => csvConvertRows hdr.length data

/-- Representability in the table-text format: only the machine-integer
ranges are required; quoting lets every description round trip. -/

def csvRepr (t : Transaction) : Prop := WFTx t

instance (t : Transaction) : Decidable (csvRepr t) := by
  unfold csvRepr
  infer_instance

/-! ### Format dispatch (`BankFormat` trait) -/

/-- The three codecs implementing the `BankFormat` trait. -/

inductive Fmt
  | bin
  | csv
  | txt

deriving DecidableEq

/-- `read_all` of the chosen format over a byte stream. The text formats
read the stream as UTF-8 text (an invalid stream is an `Io` error, as the
underlying readers produce). -/

def readAllFmt : Fmt → List Nat → Except BankFormatError (List Transaction)
  | .bin, s => binReadAll s
  | .csv, s =>
    match utf8Decode s with
    | some cs => csvReadChars cs
    | none => .error (.Io "stream did not contain valid UTF-8")
  | .txt, s =>
    match utf8Decode s with
    | some cs => txtReadChars cs
    | none => .error (.Io "stream did not contain valid UTF-8")

/-- `write_all` of the chosen format, producing the byte stream. -/

def writeAllFmt : Fmt → List Transaction → List Nat
  | .bin, L => binWriteAll L
  | .csv, L => utf8Encode (csvWriteChars L)
  | .txt, L => utf8Encode (txtWriteChars L)

/-- Representability of a record in each format's constraints. -/

def reprFmt : Fmt → Transaction → Prop
  | .bin, t => binRepr t
  | .csv, t => csvRepr t
  | .txt, t => txtRepr t

instance (f : Fmt) (t : Transaction) : Decidable (reprFmt f t) := by
  cases f <;> dsimp only [reprFmt] <;> infer_instance

/-! ### Reconciliation engine (`lib.rs`: `compare`) -/

/-- Insert into the id-to-transaction map (`HashMap` insertion semantics:
an existing key's value is overwritten). -/

def mapInsert (m : List (Nat × Transaction)) (k : Nat) (v : Transaction) :
    List (Nat × Transaction) :=
  match m with
  | [] => [(k, v)]
  | (k', v') :: rest => if k' = k then (k, v) :: rest else (k', v') :: mapInsert rest k v

/-- Lookup in the id-to-transaction map. -/

def mapLookup (m : List (Nat × Transaction)) (k : Nat) : Option Transaction :=
  match m with
  | [] => none
  | (k', v') :: rest => if k' = k then some v' else mapLookup rest k

/-- `transactions.into_iter().map(|t| (t.tx_id, t)).collect::<HashMap<_, _>>()`:
later records overwrite earlier ones with the same id. -/

def buildMap (L : List Transaction) : List (Nat × Transaction) :=
  L.foldl (fun m t => mapInsert m t.tx_id t) []

/-- Ids in side one's map that are absent from side two's. -/

def missingIn2Of (l1 l2 : List Transaction) : List Nat :=
  ((buildMap l1).map Prod.fst).filter (fun id => (mapLookup (buildMap l2) id).isNone)

/-- Ids in side two's map that are absent from side one's. -/

def missingIn1Of (l1 l2 : List Transaction) : List Nat :=
  ((buildMap l2).map Prod.fst).filter (fun id => (mapLookup (buildMap l1) id).isNone)

/-- Ids present in both maps whose transactions differ, with both values. -/

def differingOf (l1 l2 : List Transaction) : List (Nat × Transaction × Transaction) :=
  (buildMap l1).filterMap (fun p =>
    match mapLookup (buildMap l2) p.1 with
    | none => none
    | some t2 => if p.2 ≠ t2 then some (p.1, p.2, t2) else none)

/-- `CompareResult` of `lib.rs`. -/

inductive CompareResult
  | Identical
  | Mismatch (missing_in_1 : List Nat) (missing_in_2 : List Nat)
      (differing : List (Nat × Transaction × Transaction))

deriving DecidableEq

/-- The pure comparison of two decoded record lists, as `compare` computes
it after both reads succeed. -/

def compareLists (l1 l2 : List Transaction) : CompareResult :=
  if missingIn1Of l1 l2 = [] ∧ missingIn2Of l1 l2 = [] ∧ differingOf l1 l2 = [] then
    .Identical
  else
    .Mismatch (missingIn1Of l1 l2) (missingIn2Of l1 l2) (differingOf l1 l2)

/-- `compare::<F1, F2>`: decode both streams, then compare. -/

def compareStreams (f1 : Fmt) (s1 : List Nat) (f2 : Fmt) (s2 : List Nat) :
    Except BankFormatError CompareResult :=
  match readAllFmt f1 s1 with
  | .error e => .error e
  | .ok l1 =>
    match readAllFmt f2 s2 with
    | .error e => .error e
    | .ok l2 => .ok (compareLists l1 l2)

/-- `convert::<From, To>`: decode with one codec, encode with the other. -/

def convertStreams (f1 f2 : Fmt) (s : List Nat) : Except BankFormatError (List Nat) :=
  match readAllFmt f1 s with
  | .error e => .error e
  | .ok l => .ok (writeAllFmt f2 l)

/-! ### Concrete fixtures and claim-specific stream builders -/

/-- The repository test suite's canonical transaction. -/

def tx0 : Transaction :=
  { tx_id := 1, tx_type := .Deposit, from_user_id := 0, to_user_id := 42,
    amount := 1000, timestamp := 1234567890, status := .Success,
    description := "test".data }

/-- A transaction sharing `tx0`'s id with a different amount. -/

def tx1 : Transaction :=
  { tx_id := 1, tx_type := .Deposit, from_user_id := 0, to_user_id := 42,
    amount := 9999, timestamp := 1234567890, status := .Success,
    description := "test".data }

/-- The eight required block-text keys with canonical parseable values. -/

def txtRequiredPairs : List (List Char × List Char) :=
  [("TX_ID".data, "1".data), ("TX_TYPE".data, "DEPOSIT".data),
   ("FROM_USER_ID".data, "0".data), ("TO_USER_ID".data, "42".data),
   ("AMOUNT".data, "1000".data), ("TIMESTAMP".data, "123".data),
   ("STATUS".data, "SUCCESS".data), ("DESCRIPTION".data, "\"t\"".data)]

/-- The eight required block-text keys, in the order `parse_map` fetches
them. -/

def txtRequiredKeys : List (List Char) := txtRequiredPairs.map Prod.fst

/-- A complete block except that the line for key `K` is omitted. -/

def blockWithoutLines (K : List Char) : List (List Char) :=
  (txtRequiredPairs.filter (fun p => p.1 ≠ K)).map (fun p => p.1 ++ ": ".data ++ p.2)

/-- The byte stream of a block missing key `K`. -/

def blockWithoutStream (K : List Char) : List Nat :=
  utf8Encode (joinLines (blockWithoutLines K))

/-- The transaction encoded by `txtRequiredPairs`. -/

def c10Tx : Transaction :=
  { tx_id := 1, tx_type := .Deposit, from_user_id := 0, to_user_id := 42,
    amount := 1000, timestamp := 123, status := .Success, description := "t".data }

/-- A `KEY: value` line. -/

def mkKvLine (k v : List Char) : List Char := k ++ ':' :: (' ' :: v)

/-- One complete block whose lines are split after the fourth key so that
extra material `mid` can sit strictly inside the block, followed by a
terminating comment line. -/

def c10Lines (mid : List (List Char)) : List (List Char) :=
  ((txtRequiredPairs.take 4).map (fun p => p.1 ++ ": ".data ++ p.2) ++ mid) ++
  ((txtRequiredPairs.drop 4).map (fun p => p.1 ++ ": ".data ++ p.2) ++ ["#".data])

/-- The byte stream of that block followed by arbitrary remaining input. -/

def c10Stream (mid : List (List Char)) (rest : List Char) : List Nat :=
  utf8Encode (joinLines (c10Lines mid) ++ rest)

/-- Cleanliness of an extra key: non-empty, no whitespace, colon or line
break characters, and not starting the line like a comment. -/

def cleanJunkKey (k : List Char) : Prop :=
  k ≠ [] ∧ (∀ c ∈ k, isWsChar c = false ∧ c ≠ ':') ∧ k.head? ≠ some '#'

/-- Cleanliness of an extra value: non-empty, free of line breaks, not
ending in whitespace. -/

def cleanJunkVal (v : List Char) : Prop :=
  v ≠ [] ∧ '\n' ∉ v ∧ '\r' ∉ v ∧ (∀ c ∈ v.getLast?, isWsChar c = false)

instance (k : List Char) : Decidable (cleanJunkKey k) := by
  unfold cleanJunkKey
  infer_instance

instance (v : List Char) : Decidable (cleanJunkVal v) := by
  unfold cleanJunkVal
  infer_instance

theorem toBe_length (k n : Nat) : (toBe k n).length = k := by
  induction k generalizing n with
  | zero => rfl
  | succ k ih => simp [toBe, ih]

theorem fromBe_aux (bs : List Nat) (a : Nat) :
    bs.foldl (fun a b => a * 256 + b) a = a * 256 ^ bs.length + fromBe bs := by
  induction bs generalizing a with
  | nil => simp [fromBe]
  | cons b bs ih =>
    simp only [List.foldl_cons, List.length_cons, fromBe, Nat.zero_mul, Nat.zero_add] at *
    rw [ih (a * 256 + b), ih b]
    ring

theorem fromBe_append_one (bs : List Nat) (b : Nat) :
    fromBe (bs ++ [b]) = fromBe bs * 256 + b := by
  simp [fromBe, List.foldl_append]

theorem fromBe_toBe (k n : Nat) (h : n < 256 ^ k) : fromBe (toBe k n) = n := by
  induction k generalizing n with
  | zero =>
    simp only [toBe, fromBe, List.foldl_nil]
    simp only [pow_zero] at h
    omega
  | succ k ih =>
    have hdiv : n / 256 < 256 ^ k := by
      rw [Nat.div_lt_iff_lt_mul (by norm_num)]
      calc n < 256 ^ (k + 1) := h
        _ = 256 ^ k * 256 := by ring
    simp only [toBe]
    rw [fromBe_append_one, ih _ hdiv]
    omega

theorem readExact_append (xs rest : List Nat) (n : Nat) (h : xs.length = n) :
    readExact n (xs ++ rest) = some (xs, rest) := by
  subst h
  simp [readExact, List.take_append, List.drop_append]

theorem readExact_short (s : List Nat) (n : Nat) (h : s.length < n) :
    readExact n s = none := by
  simp [readExact]
  omega

theorem toU64_lt (x : Int) : toU64 x < 2 ^ 64 := by
  have h := Int.emod_lt_of_pos x (b := 2 ^ 64) (by norm_num)
  have h2 := Int.emod_nonneg x (b := 2 ^ 64) (by norm_num)
  simp only [toU64]
  omega

theorem fromI64_toU64 (x : Int) (h1 : -(2 ^ 63) ≤ x) (h2 : x < 2 ^ 63) :
    fromI64 (toU64 x) = x := by
  simp only [toU64, fromI64]
  split <;> omega

theorem digitVal_digitChar : ∀ d : Nat, d < 10 → digitVal (digitChar d) = some d := by
  decide

theorem natToCharsGo_eq : ∀ n fuel, n < fuel → natToCharsGo fuel n = natToCharsGo (n + 1) n := by
  intro n
  induction n using Nat.strong_induction_on with
  | _ n ih =>
    intro fuel h
    obtain ⟨f, rfl⟩ : ∃ f, fuel = f + 1 := ⟨fuel - 1, by omega⟩
    rw [natToCharsGo, natToCharsGo]
    split
    · rfl
    · next h10 =>
      have hd : n / 10 < n := Nat.div_lt_self (by omega) (by omega)
      rw [ih (n / 10) hd f (by omega), ih (n / 10) hd n hd]

theorem natToChars_eq (n : Nat) :
    natToChars n = if n < 10 then [digitChar n]
      else natToChars (n / 10) ++ [digitChar (n % 10)] := by
  rw [natToChars, natToCharsGo]
  split
  · rfl
  · next h10 =>
    have hd : n / 10 < n := Nat.div_lt_self (by omega) (by omega)
    rw [show natToCharsGo n (n / 10) = natToChars (n / 10) from natToCharsGo_eq (n / 10) n hd]

theorem natToChars_ne_nil (n : Nat) : natToChars n ≠ [] := by
  rw [natToChars_eq]
  split <;> simp

theorem parseNatGo_append (xs ys : List Char) (acc : Nat) :
    parseNatGo (xs ++ ys) acc =
      match parseNatGo xs acc with
      | some a => parseNatGo ys a
      | none => none := by
  induction xs generalizing acc with
  | nil => simp [parseNatGo]
  | cons c cs ih =>
    simp only [List.cons_append, parseNatGo]
    cases digitVal c <;> simp [ih]

theorem parseNatGo_natToChars (n : Nat) :
    ∀ acc, parseNatGo (natToChars n) acc = some (acc * 10 ^ (natToChars n).length + n) := by
  induction n using Nat.strong_induction_on with
  | _ n ih =>
    intro acc
    rw [natToChars_eq]
    split
    · next h =>
      simp [parseNatGo, digitVal_digitChar n h]
    · next h =>
      have hlt : n / 10 < n := Nat.div_lt_self (by omega) (by omega)
      rw [parseNatGo_append, ih (n / 10) hlt acc]
      have hmod : n % 10 < 10 := Nat.mod_lt _ (by omega)
      simp only [parseNatGo, digitVal_digitChar (n % 10) hmod]
      rw [List.length_append, List.length_singleton]
      congr 1
      have h10 : acc * 10 ^ ((natToChars (n / 10)).length + 1) =
          acc * 10 ^ (natToChars (n / 10)).length * 10 := by ring
      omega

theorem parseNatRaw_natToChars (n : Nat) : parseNatRaw (natToChars n) = some n := by
  have h := parseNatGo_natToChars n 0
  simp only [Nat.zero_mul, Nat.zero_add] at h
  unfold parseNatRaw
  split
  · next heq => exact absurd heq (natToChars_ne_nil n)
  · exact h

theorem natToChars_digits (n : Nat) : ∀ c ∈ natToChars n, (digitVal c).isSome := by
  induction n using Nat.strong_induction_on with
  | _ n ih =>
    intro c hc
    rw [natToChars_eq] at hc
    split at hc
    · next h =>
      simp only [List.mem_singleton] at hc
      subst hc
      rw [digitVal_digitChar n h]
      rfl
    · next h =>
      rcases List.mem_append.mp hc with h1 | h1
      · exact ih (n / 10) (Nat.div_lt_self (by omega) (by omega)) c h1
      · simp only [List.mem_singleton] at h1
        subst h1
        rw [digitVal_digitChar (n % 10) (Nat.mod_lt _ (by omega))]
        rfl

theorem natToChars_head_digit (n : Nat) :
    ∃ c cs, natToChars n = c :: cs ∧ (digitVal c).isSome := by
  cases hc : natToChars n with
  | nil => exact absurd hc (natToChars_ne_nil n)
  | cons c cs =>
    exact ⟨c, cs, rfl, natToChars_digits n c (hc ▸ List.mem_cons_self c cs)⟩

theorem parseU64_natToChars (n : Nat) (h : n < 2 ^ 64) :
    parseU64 (natToChars n) = some n := by
  obtain ⟨c, cs, hc, hd⟩ := natToChars_head_digit n
  have hplus : c ≠ '+' := by
    intro he
    rw [he] at hd
    simp [digitVal] at hd
  rw [parseU64.eq_def, hc]
  simp only [if_neg hplus, ← hc, parseNatRaw_natToChars n, if_pos h]

theorem parseI64_intToChars (x : Int) (h1 : -(2 ^ 63) ≤ x) (h2 : x < 2 ^ 63) :
    parseI64 (intToChars x) = some x := by
  by_cases hx : x < 0
  · rw [intToChars, if_pos hx, parseI64.eq_def]
    simp only [if_pos rfl, parseNatRaw_natToChars]
    have hle : x.natAbs ≤ 2 ^ 63 := by omega
    rw [if_pos hle]
    have hcast : ((x.natAbs : Int)) = -x := by omega
    rw [hcast, neg_neg]
    simp
  · rw [intToChars, if_neg hx]
    obtain ⟨c, cs, hc, hd⟩ := natToChars_head_digit x.toNat
    have hminus : c ≠ '-' := by
      intro he; rw [he] at hd; simp [digitVal] at hd
    have hplus : c ≠ '+' := by
      intro he; rw [he] at hd; simp [digitVal] at hd
    rw [parseI64.eq_def, hc]
    simp only [if_neg hminus, if_neg hplus, ← hc, parseNatRaw_natToChars]
    have hb : x.toNat < 2 ^ 63 := by omega
    rw [if_pos hb]
    congr 1
    omega

theorem charOfToNat (c : Char) (h : c.toNat.isValidChar) : Char.ofNatAux c.toNat h = c := by
  apply Char.ext
  apply UInt32.ext
  rfl

theorem ofNatAux_congr (n : Nat) (h : n.isValidChar) (c : Char) (he : n = c.toNat) :
    Char.ofNatAux n h = c := by
  subst he
  exact charOfToNat c h

theorem encodeChar_ne_nil (c : Char) : encodeChar c ≠ [] := by
  rw [encodeChar]
  split
  · simp
  · split
    · simp
    · split <;> simp

theorem decodeChar_encodeChar (c : Char) (rest : List Nat) :
    decodeChar (encodeChar c ++ rest) = some (c, rest) := by
  have hv : c.toNat.isValidChar := c.valid
  have hbound : c.toNat < 1114112 := by rcases hv with h | h <;> omega
  rw [encodeChar]
  by_cases h1 : c.toNat < 0x80
  · rw [if_pos h1]
    simp only [List.cons_append, List.nil_append, decodeChar]
    rw [if_pos h1, dif_pos hv, charOfToNat]
  · rw [if_neg h1]
    by_cases h2 : c.toNat < 0x800
    · rw [if_pos h2]
      simp only [List.cons_append, List.nil_append, decodeChar]
      rw [if_neg (by omega), if_neg (by omega), if_pos (by omega),
        dif_pos (by omega : 0x80 ≤ 0x80 + c.toNat % 64 ∧ 0x80 + c.toNat % 64 < 0xC0)]
      have hveq : (0xC0 + c.toNat / 64 - 0xC0) * 64 + (0x80 + c.toNat % 64 - 0x80) = c.toNat := by
        omega
      rw [dif_pos (by rw [hveq]; exact ⟨by omega, hv⟩)]
      simp only [Option.some.injEq, Prod.mk.injEq, and_true]
      exact ofNatAux_congr _ _ c hveq
    · rw [if_neg h2]
      by_cases h3 : c.toNat < 0x10000
      · rw [if_pos h3]
        simp only [List.cons_append, List.nil_append, decodeChar]
        rw [if_neg (by omega), if_neg (by omega), if_neg (by omega), if_pos (by omega),
          dif_pos (by constructor <;> constructor <;> omega)]
        have hveq : (0xE0 + c.toNat / 4096 - 0xE0) * 4096 +
            (0x80 + c.toNat / 64 % 64 - 0x80) * 64 + (0x80 + c.toNat % 64 - 0x80) = c.toNat := by
          omega
        rw [dif_pos (by rw [hveq]; exact ⟨by omega, hv⟩)]
        simp only [Option.some.injEq, Prod.mk.injEq, and_true]
        exact ofNatAux_congr _ _ c hveq
      · rw [if_neg h3]
        simp only [List.cons_append, List.nil_append, decodeChar]
        rw [if_neg (by omega), if_neg (by omega), if_neg (by omega), if_neg (by omega),
          if_pos (by omega),
          dif_pos (by refine ⟨⟨?_, ?_⟩, ⟨?_, ?_⟩, ?_, ?_⟩ <;> omega)]
        have hveq : (0xF0 + c.toNat / 262144 - 0xF0) * 262144 +
            (0x80 + c.toNat / 4096 % 64 - 0x80) * 4096 +
            (0x80 + c.toNat / 64 % 64 - 0x80) * 64 + (0x80 + c.toNat % 64 - 0x80) = c.toNat := by
          omega
        rw [dif_pos (by rw [hveq]; exact ⟨by omega, hv⟩)]
        simp only [Option.some.injEq, Prod.mk.injEq, and_true]
        exact ofNatAux_congr _ _ c hveq

theorem utf8Encode_cons (c : Char) (cs : List Char) :
    utf8Encode (c :: cs) = encodeChar c ++ utf8Encode cs := by
  simp [utf8Encode]

theorem utf8DecodeGo_mono :
    ∀ f g s out, utf8DecodeGo f s = some out → f ≤ g → utf8DecodeGo g s = some out := by
  intro f
  induction f with
  | zero =>
    intro g s out h _
    cases s with
    | nil => cases g <;> simpa [utf8DecodeGo] using h
    | cons b rest => simp [utf8DecodeGo] at h
  | succ f ih =>
    intro g s out h hle
    cases s with
    | nil => cases g <;> simpa [utf8DecodeGo] using h
    | cons b rest =>
      obtain ⟨g', rfl⟩ : ∃ g', g = g' + 1 := ⟨g - 1, by omega⟩
      rw [utf8DecodeGo] at h ⊢
      cases hd : decodeChar (b :: rest) with
      | none => rw [hd] at h; exact absurd h (by simp)
      | some pr =>
        obtain ⟨c, r'⟩ := pr
        rw [hd] at h
        dsimp only at h ⊢
        cases hin : utf8DecodeGo f r' with
        | none => rw [hin] at h; exact absurd h (by simp)
        | some out' =>
          rw [hin] at h
          rw [ih g' r' out' hin (by omega)]
          exact h

theorem utf8DecodeGo_encode :
    ∀ cs rest fuel out, utf8DecodeGo fuel rest = some out →
      utf8DecodeGo (cs.length + fuel) (utf8Encode cs ++ rest) = some (cs ++ out) := by
  intro cs
  induction cs with
  | nil =>
    intro rest fuel out h
    simpa [utf8Encode]
  | cons c cs ih =>
    intro rest fuel out h
    obtain ⟨b, bs, hb⟩ := List.exists_cons_of_ne_nil (encodeChar_ne_nil c)
    rw [utf8Encode_cons, List.append_assoc, hb,
      show (c :: cs).length + fuel = (cs.length + fuel) + 1 by simp; omega,
      List.cons_append, utf8DecodeGo,
      show b :: (bs ++ (utf8Encode cs ++ rest)) = (b :: bs) ++ (utf8Encode cs ++ rest) by simp,
      ← hb, decodeChar_encodeChar]
    dsimp only
    rw [ih rest fuel out h]
    rfl

theorem length_le_utf8Encode (cs : List Char) : cs.length ≤ (utf8Encode cs).length := by
  induction cs with
  | nil => simp [utf8Encode]
  | cons c cs ih =>
    rw [utf8Encode_cons, List.length_append]
    have := encodeChar_ne_nil c
    have h1 : 1 ≤ (encodeChar c).length := by
      cases hc : encodeChar c with
      | nil => exact absurd hc this
      | cons _ _ => simp
    simp only [List.length_cons]
    omega

theorem utf8Decode_utf8Encode (cs : List Char) : utf8Decode (utf8Encode cs) = some cs := by
  have h0 : utf8DecodeGo 0 [] = some [] := rfl
  have h := utf8DecodeGo_encode cs [] 0 [] h0
  simp only [List.append_nil, Nat.add_zero] at h
  exact utf8DecodeGo_mono _ _ _ _ h (by have := length_le_utf8Encode cs; omega)

theorem stripCr_no_cr (l : List Char) (h : l.getLast? ≠ some '\r') : stripCr l = l := by
  simp [stripCr, h]

theorem splitLinesGo_line (l : List Char) (hnl : '\n' ∉ l) :
    ∀ acc t, splitLinesGo acc (l ++ '\n' :: t) =
      if t = [] then [stripCr (acc.reverse ++ l)]
      else stripCr (acc.reverse ++ l) :: splitLinesGo [] t := by
  induction l with
  | nil =>
    intro acc t
    simp [splitLinesGo]
  | cons c l ih =>
    intro acc t
    have hc : c ≠ '\n' := fun h => hnl (h ▸ List.mem_cons_self c l)
    have hl : '\n' ∉ l := fun h => hnl (List.mem_cons_of_mem c h)
    simp only [List.cons_append, splitLinesGo, if_neg hc]
    rw [show l.append ('\n' :: t) = l ++ '\n' :: t from rfl, ih hl (c :: acc) t]
    simp

theorem splitLines_nonempty (s : List Char) (h : s ≠ []) :
    splitLines s = splitLinesGo [] s := by
  simp [splitLines, h]

theorem splitLines_join (ls : List (List Char)) (rest : List Char)
    (h : ∀ l ∈ ls, '\n' ∉ l ∧ l.getLast? ≠ some '\r') :
    splitLines (joinLines ls ++ rest) = ls ++ splitLines rest := by
  induction ls with
  | nil => simp [joinLines]
  | cons l ls ih =>
    obtain ⟨hnl, hcr⟩ := h l (List.mem_cons_self l ls)
    have hrec := ih (fun x hx => h x (List.mem_cons_of_mem l hx))
    have hjoin : joinLines (l :: ls) = l ++ '\n' :: joinLines ls := by
      simp [joinLines]
    rw [hjoin, List.append_assoc, List.cons_append, splitLines,
      if_neg (by simp), splitLinesGo_line l hnl]
    by_cases hend : joinLines ls ++ rest = []
    · rw [if_pos hend]
      rcases List.append_eq_nil.mp hend with ⟨h1, h2⟩
      have hls : ls = [] := by
        cases ls with
        | nil => rfl
        | cons a as => simp [joinLines] at h1
      subst hls
      subst h2
      simp [splitLines, stripCr_no_cr l hcr]
    · rw [if_neg hend, ← splitLines_nonempty _ hend, hrec]
      simp [stripCr_no_cr l hcr]

theorem txTypeOfByte_byte (k : TxType) : txTypeOfByte (txTypeByte k) = some k := by
  cases k <;> rfl

theorem statusOfByte_byte (s : Status) : statusOfByte (statusByte s) = some s := by
  cases s <;> rfl

theorem binReadGo_record (fuel sz : Nat) (t : Transaction) (rest : List Nat)
    (ht : binRepr t) (h46 : 46 ≤ sz) (h32 : sz < 2 ^ 32) :
    binReadGo (fuel + 1) (binRecordWithSize sz t ++ rest) =
      match binReadGo fuel rest with
      | .ok l => .ok (t :: l)
      | .error e => .error e := by
  obtain ⟨⟨hid, hf1, hf2, ht1, ht2, ha1, ha2, hs1, hs2⟩, hdlen⟩ := ht
  have h256 : (256 : Nat) ^ 4 = 2 ^ 32 := by norm_num
  have h2568 : (256 : Nat) ^ 8 = 2 ^ 64 := by norm_num
  have hsz : fromBe (toBe 4 sz) = sz := fromBe_toBe _ _ (by omega)
  have hszlt : ¬ sz < 46 := by omega
  have hide : fromBe (toBe 8 t.tx_id) = t.tx_id := fromBe_toBe _ _ (by omega)
  have hfrom : fromI64 (fromBe (toBe 8 (toU64 t.from_user_id))) = t.from_user_id := by
    rw [fromBe_toBe _ _ (by have := toU64_lt t.from_user_id; omega)]
    exact fromI64_toU64 _ hf1 hf2
  have hto : fromI64 (fromBe (toBe 8 (toU64 t.to_user_id))) = t.to_user_id := by
    rw [fromBe_toBe _ _ (by have := toU64_lt t.to_user_id; omega)]
    exact fromI64_toU64 _ ht1 ht2
  have hamt : fromI64 (fromBe (toBe 8 (toU64 t.amount))) = t.amount := by
    rw [fromBe_toBe _ _ (by have := toU64_lt t.amount; omega)]
    exact fromI64_toU64 _ ha1 ha2
  have hts : fromI64 (fromBe (toBe 8 (toU64 t.timestamp))) = t.timestamp := by
    rw [fromBe_toBe _ _ (by have := toU64_lt t.timestamp; omega)]
    exact fromI64_toU64 _ hs1 hs2
  have hdl : fromBe (toBe 4 (descBytes t).length) = (descBytes t).length :=
    fromBe_toBe _ _ (by omega)
  have hdlgt : ¬ (descBytes t).length > 4096 := by omega
  rw [binReadGo]
  simp only [binRecordWithSize, binBody, List.append_assoc]
  rw [readExact_append MAGIC _ 4 (by rfl)]
  simp only [ne_eq, not_true_eq_false, if_false, ite_false, reduceIte]
  rw [readExact_append (toBe 4 sz) _ 4 (toBe_length 4 sz)]
  simp only [hsz, if_neg hszlt]
  rw [readExact_append (toBe 8 t.tx_id) _ 8 (toBe_length 8 _)]
  simp only [hide]
  rw [readExact_append [txTypeByte t.tx_type] _ 1 (by rfl)]
  simp only [head1, List.headI, txTypeOfByte_byte]
  rw [readExact_append (toBe 8 (toU64 t.from_user_id)) _ 8 (toBe_length 8 _)]
  dsimp only
  rw [readExact_append (toBe 8 (toU64 t.to_user_id)) _ 8 (toBe_length 8 _)]
  dsimp only
  rw [readExact_append (toBe 8 (toU64 t.amount)) _ 8 (toBe_length 8 _)]
  dsimp only
  rw [readExact_append (toBe 8 (toU64 t.timestamp)) _ 8 (toBe_length 8 _)]
  dsimp only
  rw [readExact_append [statusByte t.status] _ 1 (by rfl)]
  simp only [head1, List.headI, statusOfByte_byte]
  rw [readExact_append (toBe 4 (descBytes t).length) _ 4 (toBe_length 4 _)]
  simp only [hdl, if_neg hdlgt]
  rw [readExact_append (descBytes t) _ _ rfl]
  simp only [descBytes, utf8Decode_utf8Encode, hfrom, hto, hamt, hts]

theorem binWriteRecord_eq (t : Transaction) :
    binWriteRecord t = binRecordWithSize (46 + (descBytes t).length) t := by
  rw [binWriteRecord]

theorem binWriteAll_cons (t : Transaction) (L : List Transaction) :
    binWriteAll (t :: L) = binWriteRecord t ++ binWriteAll L := by
  simp [binWriteAll]

theorem length_le_binWriteAll (L : List Transaction) :
    L.length ≤ (binWriteAll L).length := by
  induction L with
  | nil => simp [binWriteAll]
  | cons t L ih =>
    rw [binWriteAll_cons, List.length_append]
    have : 4 ≤ (binWriteRecord t).length := by
      rw [binWriteRecord, binRecordWithSize]
      simp [MAGIC, toBe_length]
    simp only [List.length_cons]
    omega

theorem binReadGo_writeAll (L : List Transaction) (hL : ∀ t ∈ L, binRepr t) :
    ∀ fuel tail, tail.length < 4 → L.length + 1 ≤ fuel →
      binReadGo fuel (binWriteAll L ++ tail) = .ok L := by
  induction L with
  | nil =>
    intro fuel tail htail hfuel
    obtain ⟨f, rfl⟩ : ∃ f, fuel = f + 1 := ⟨fuel - 1, by omega⟩
    rw [show binWriteAll [] ++ tail = tail by simp [binWriteAll], binReadGo,
      readExact_short tail 4 htail]
  | cons t L ih =>
    intro fuel tail htail hfuel
    obtain ⟨f, rfl⟩ : ∃ f, fuel = f + 1 := ⟨fuel - 1, by omega⟩
    have ht := hL t (List.mem_cons_self t L)
    have hdl : (descBytes t).length ≤ 4096 := ht.2
    rw [binWriteAll_cons, binWriteRecord_eq, List.append_assoc,
      binReadGo_record f _ t _ ht (by omega) (by norm_num; omega),
      ih (fun x hx => hL x (List.mem_cons_of_mem t hx)) f tail htail
        (by simp at hfuel; omega)]

/-- Binary round trip at any sufficient fuel, packaged at the public
`read_all` level. -/
theorem binReadAll_writeAll (L : List Transaction) (hL : ∀ t ∈ L, binRepr t) :
    binReadAll (binWriteAll L) = .ok L := by
  rw [binReadAll, show binWriteAll L = binWriteAll L ++ [] by simp]
  apply binReadGo_writeAll L hL _ [] (by simp)
  have := length_le_binWriteAll L
  simp only [List.append_nil]
  omega

/-- Error propagation over a prefix of well-formed records: if the
remainder of the stream always fails with error `e` (at any positive
fuel), the whole stream fails with `e`. -/
theorem binReadGo_append_error (L : List Transaction) (hL : ∀ t ∈ L, binRepr t)
    (s : List Nat) (e : BankFormatError) (hs : ∀ g, 1 ≤ g → binReadGo g s = .error e) :
    ∀ fuel, L.length + 1 ≤ fuel → binReadGo fuel (binWriteAll L ++ s) = .error e := by
  induction L with
  | nil =>
    intro fuel hfuel
    rw [show binWriteAll [] ++ s = s by simp [binWriteAll]]
    exact hs fuel (by omega)
  | cons t L ih =>
    intro fuel hfuel
    obtain ⟨f, rfl⟩ : ∃ f, fuel = f + 1 := ⟨fuel - 1, by omega⟩
    have ht := hL t (List.mem_cons_self t L)
    have hdl : (descBytes t).length ≤ 4096 := ht.2
    rw [binWriteAll_cons, binWriteRecord_eq, List.append_assoc,
      binReadGo_record f _ t _ ht (by omega) (by norm_num; omega),
      ih (fun x hx => hL x (List.mem_cons_of_mem t hx)) f (by simp at hfuel; omega)]

theorem binReadGo_oversized (fuel sz dl : Nat) (t : Transaction) (rest : List Nat)
    (hid : t.tx_id < 2 ^ 64) (h46 : 46 ≤ sz) (h32 : sz < 2 ^ 32)
    (hdl : 4096 < dl) (hdl32 : dl < 2 ^ 32) :
    binReadGo (fuel + 1) (binRecordWithDescLen sz dl t ++ rest) =
      .error (.InvalidBinary ("description length " ++ String.mk (natToChars dl) ++
        " exceeds maximum allowed 4096")) := by
  have h256 : (256 : Nat) ^ 4 = 2 ^ 32 := by norm_num
  have h2568 : (256 : Nat) ^ 8 = 2 ^ 64 := by norm_num
  have hsz : fromBe (toBe 4 sz) = sz := fromBe_toBe _ _ (by omega)
  have hszlt : ¬ sz < 46 := by omega
  have hide : fromBe (toBe 8 t.tx_id) = t.tx_id := fromBe_toBe _ _ (by omega)
  have hdle : fromBe (toBe 4 dl) = dl := fromBe_toBe _ _ (by omega)
  rw [binReadGo]
  simp only [binRecordWithDescLen, List.append_assoc]
  rw [readExact_append MAGIC _ 4 (by rfl)]
  simp only [ne_eq, not_true_eq_false, if_false, ite_false, reduceIte]
  rw [readExact_append (toBe 4 sz) _ 4 (toBe_length 4 sz)]
  simp only [hsz, if_neg hszlt]
  rw [readExact_append (toBe 8 t.tx_id) _ 8 (toBe_length 8 _)]
  simp only [hide]
  rw [readExact_append [txTypeByte t.tx_type] _ 1 (by rfl)]
  simp only [head1, List.headI, txTypeOfByte_byte]
  rw [readExact_append (toBe 8 (toU64 t.from_user_id)) _ 8 (toBe_length 8 _)]
  dsimp only
  rw [readExact_append (toBe 8 (toU64 t.to_user_id)) _ 8 (toBe_length 8 _)]
  dsimp only
  rw [readExact_append (toBe 8 (toU64 t.amount)) _ 8 (toBe_length 8 _)]
  dsimp only
  rw [readExact_append (toBe 8 (toU64 t.timestamp)) _ 8 (toBe_length 8 _)]
  dsimp only
  rw [readExact_append [statusByte t.status] _ 1 (by rfl)]
  simp only [head1, List.headI, statusOfByte_byte]
  rw [readExact_append (toBe 4 dl) _ 4 (toBe_length 4 _)]
  simp only [hdle, if_pos hdl]

theorem dropWhileChar_eq_self (p : Char → Bool) (l : List Char)
    (h : ∀ c ∈ l.head?, p c = false) : l.dropWhile p = l := by
  cases l with
  | nil => rfl
  | cons c cs =>
    have := h c (by simp)
    simp [List.dropWhile_cons, this]

theorem trimChars_eq_self (l : List Char)
    (h1 : ∀ c ∈ l.head?, isWsChar c = false)
    (h2 : ∀ c ∈ l.getLast?, isWsChar c = false) : trimChars l = l := by
  unfold trimChars
  rw [dropWhileChar_eq_self _ _ h1,
    dropWhileChar_eq_self _ _ (by rw [List.head?_reverse]; exact h2),
    List.reverse_reverse]

theorem trimChars_cons_space (v : List Char) : trimChars (' ' :: v) = trimChars v := by
  unfold trimChars
  rw [List.dropWhile_cons]
  norm_num [isWsChar]

theorem trimQuotes_eq_self (l : List Char)
    (h1 : ∀ c ∈ l.head?, (c = '"' : Bool) = false)
    (h2 : ∀ c ∈ l.getLast?, (c = '"' : Bool) = false) : trimQuotes l = l := by
  unfold trimQuotes
  rw [dropWhileChar_eq_self _ _ h1,
    dropWhileChar_eq_self _ _ (by rw [List.head?_reverse]; exact h2),
    List.reverse_reverse]

theorem trimQuotes_wrap (d : List Char)
    (h1 : d.head? ≠ some '"') (h2 : d.getLast? ≠ some '"') :
    trimQuotes ('"' :: (d ++ ['"'])) = d := by
  cases d with
  | nil => rfl
  | cons c cs =>
    have hc : c ≠ '"' := by
      intro he
      exact h1 (by simp [he])
    have hqt : (fun x => decide (x = '"')) '"' = true := by decide
    have hqc : (fun x => decide (x = '"')) c = false := by
      simp only [decide_eq_false_iff_not]
      exact hc
    have hlast : ∀ x ∈ (c :: cs).reverse.head?, (fun x => decide (x = '"')) x = false := by
      intro x hx
      rw [List.head?_reverse] at hx
      simp only [Option.mem_def] at hx
      simp only [decide_eq_false_iff_not]
      intro he
      exact h2 (by rw [hx, he])
    have hq1 : List.dropWhile (fun x => decide (x = '"')) ('"' :: ((c :: cs) ++ ['"'])) =
        (c :: cs) ++ ['"'] := by
      rw [List.dropWhile_cons, if_pos hqt, List.cons_append, List.dropWhile_cons, if_neg (by simp [hqc])]
    have hq3 : ((c :: cs) ++ ['"']).reverse = '"' :: (c :: cs).reverse := by
      simp
    have hq4 : List.dropWhile (fun x => decide (x = '"')) ('"' :: (c :: cs).reverse) =
        (c :: cs).reverse := by
      rw [List.dropWhile_cons, if_pos hqt, dropWhileChar_eq_self _ _ hlast]
    unfold trimQuotes
    rw [hq1, hq3, hq4, List.reverse_reverse]

theorem splitOnceColon_append (k rest : List Char) (h : ':' ∉ k) :
    splitOnceColon (k ++ ':' :: rest) = some (k, rest) := by
  induction k with
  | nil => simp [splitOnceColon]
  | cons c cs ih =>
    have hc : c ≠ ':' := fun he => h (he ▸ List.mem_cons_self c cs)
    simp only [List.cons_append, splitOnceColon, if_neg hc, List.append_eq,
      ih (fun hm => h (List.mem_cons_of_mem c hm))]
    rfl

theorem kvInsert_ne_nil (m : List (List Char × List Char)) (k v : List Char) :
    kvInsert m k v ≠ [] := by
  cases m with
  | nil => simp [kvInsert]
  | cons p rest =>
    obtain ⟨k', v'⟩ := p
    simp only [kvInsert]
    split <;> simp

theorem kvLookup_insert_self (m : List (List Char × List Char)) (k v : List Char) :
    kvLookup (kvInsert m k v) k = some v := by
  induction m with
  | nil => simp [kvInsert, kvLookup]
  | cons p rest ih =>
    obtain ⟨k', v'⟩ := p
    simp only [kvInsert]
    split
    · simp [kvLookup]
    · next hne => simp only [kvLookup, if_neg hne, ih]

theorem kvLookup_insert_ne (m : List (List Char × List Char)) (k v k' : List Char)
    (h : k' ≠ k) : kvLookup (kvInsert m k v) k' = kvLookup m k' := by
  induction m with
  | nil =>
    simp only [kvInsert, kvLookup]
    rw [if_neg (fun he => h he.symm)]
  | cons p rest ih =>
    obtain ⟨a, b⟩ := p
    simp only [kvInsert]
    split
    · next hak =>
      subst hak
      simp only [kvLookup, if_neg (fun he : a = k' => h he.symm)]
    · simp only [kvLookup, ih]

theorem digit_not_ws (c : Char) (h : (digitVal c).isSome) : isWsChar c = false := by
  simp only [isWsChar, Bool.or_eq_false_iff, decide_eq_false_iff_not]
  refine ⟨⟨⟨?_, ?_⟩, ?_⟩, ?_⟩ <;> rintro rfl <;> simp [digitVal] at h

theorem digit_not_quote (c : Char) (h : (digitVal c).isSome) : (c = '"' : Bool) = false := by
  simp only [decide_eq_false_iff_not]
  rintro rfl
  simp [digitVal] at h

theorem mem_of_getLast?Char {l : List Char} {a : Char} (h : a ∈ l.getLast?) : a ∈ l := by
  rcases List.mem_getLast?_eq_getLast h with ⟨hne, rfl⟩
  exact List.getLast_mem hne

theorem head?_cond {P : Char → Prop} {l : List Char} (h : ∀ c ∈ l, P c) :
    ∀ c ∈ l.head?, P c :=
  fun c hc => h c (List.mem_of_mem_head? hc)

theorem getLast?_cond {P : Char → Prop} {l : List Char} (h : ∀ c ∈ l, P c) :
    ∀ c ∈ l.getLast?, P c :=
  fun c hc => h c (mem_of_getLast?Char hc)

theorem natToChars_no_ws (n : Nat) : ∀ c ∈ natToChars n, isWsChar c = false :=
  fun c hc => digit_not_ws c (natToChars_digits n c hc)

theorem natToChars_no_quote (n : Nat) : ∀ c ∈ natToChars n, (c = '"' : Bool) = false :=
  fun c hc => digit_not_quote c (natToChars_digits n c hc)

theorem intToChars_no_ws (x : Int) : ∀ c ∈ intToChars x, isWsChar c = false := by
  unfold intToChars
  split
  · intro c hc
    rcases List.mem_cons.mp hc with rfl | hm
    · decide
    · exact natToChars_no_ws _ c hm
  · exact natToChars_no_ws _

theorem intToChars_no_quote (x : Int) : ∀ c ∈ intToChars x, (c = '"' : Bool) = false := by
  unfold intToChars
  split
  · intro c hc
    rcases List.mem_cons.mp hc with rfl | hm
    · decide
    · exact natToChars_no_quote _ c hm
  · exact natToChars_no_quote _

theorem intToChars_ne_nil (x : Int) : intToChars x ≠ [] := by
  unfold intToChars
  split
  · simp
  · exact natToChars_ne_nil _

theorem trimVal_nat (n : Nat) :
    trimQuotes (trimChars (' ' :: natToChars n)) = natToChars n := by
  rw [trimChars_cons_space,
    trimChars_eq_self _ (head?_cond (natToChars_no_ws n)) (getLast?_cond (natToChars_no_ws n)),
    trimQuotes_eq_self _ (head?_cond (natToChars_no_quote n))
      (getLast?_cond (natToChars_no_quote n))]

theorem trimVal_int (x : Int) :
    trimQuotes (trimChars (' ' :: intToChars x)) = intToChars x := by
  rw [trimChars_cons_space,
    trimChars_eq_self _ (head?_cond (intToChars_no_ws x)) (getLast?_cond (intToChars_no_ws x)),
    trimQuotes_eq_self _ (head?_cond (intToChars_no_quote x))
      (getLast?_cond (intToChars_no_quote x))]

theorem trimVal_txType (k : TxType) :
    trimQuotes (trimChars (' ' :: txTypeToken k)) = txTypeToken k := by
  cases k <;> decide

theorem trimVal_status (s : Status) :
    trimQuotes (trimChars (' ' :: statusToken s)) = statusToken s := by
  cases s <;> decide

theorem trimVal_desc (d : List Char)
    (h1 : d.head? ≠ some '"') (h2 : d.getLast? ≠ some '"') :
    trimQuotes (trimChars (' ' :: ('"' :: (d ++ ['"'])))) = d := by
  rw [trimChars_cons_space, trimChars_eq_self, trimQuotes_wrap d h1 h2]
  · intro c hc
    simp only [List.head?_cons, Option.mem_def, Option.some.injEq] at hc
    subst hc
    decide
  · intro c hc
    have hg : ('"' :: (d ++ ['"'])).getLast? = some '"' := by
      rw [← List.cons_append]
      exact List.getLast?_concat _
    rw [hg] at hc
    simp only [Option.mem_def, Option.some.injEq] at hc
    subst hc
    decide

theorem txtGo_step_insert (line : List Char) (restLines : List (List Char))
    (cur : List (List Char × List Char)) (k v : List Char)
    (hhead : ¬ (trimChars line).head? = some '#')
    (hsplit : splitOnceColon (trimChars line) = some (k, v)) :
    txtGo (line :: restLines) cur =
      txtGo restLines (kvInsert cur (trimChars k) (trimQuotes (trimChars v))) := by
  rw [txtGo, if_neg hhead, hsplit]

theorem txtGo_step_skip (line : List Char) (restLines : List (List Char))
    (cur : List (List Char × List Char))
    (hhead : ¬ (trimChars line).head? = some '#')
    (hsplit : splitOnceColon (trimChars line) = none) :
    txtGo (line :: restLines) cur = txtGo restLines cur := by
  rw [txtGo, if_neg hhead, hsplit]

theorem txtGo_step_comment_empty (line : List Char) (restLines : List (List Char))
    (hhead : (trimChars line).head? = some '#') :
    txtGo (line :: restLines) [] = txtGo restLines [] := by
  rw [txtGo, if_pos hhead, if_pos rfl]

theorem txtGo_step_flush (line : List Char) (restLines : List (List Char))
    (cur : List (List Char × List Char))
    (hhead : (trimChars line).head? = some '#') (hcur : cur ≠ []) :
    txtGo (line :: restLines) cur =
      match txtParseMap cur with
      | .error e => .error e
      | .ok t =>
        match txtGo restLines [] with
        | .error e => .error e
        | .ok rest => .ok (t :: rest)
    := by
  rw [txtGo, if_pos hhead, if_neg hcur]

theorem txMapOf_ne_nil (t : Transaction) : txMapOf t ≠ [] := kvInsert_ne_nil _ _ _

theorem txMapOf_TX_ID (t : Transaction) :
    kvLookup (txMapOf t) "TX_ID".data = some (natToChars t.tx_id) := by
  unfold txMapOf
  rw [kvLookup_insert_ne _ _ _ _ (by decide), kvLookup_insert_ne _ _ _ _ (by decide),
    kvLookup_insert_ne _ _ _ _ (by decide), kvLookup_insert_ne _ _ _ _ (by decide),
    kvLookup_insert_ne _ _ _ _ (by decide), kvLookup_insert_ne _ _ _ _ (by decide),
    kvLookup_insert_ne _ _ _ _ (by decide), kvLookup_insert_self]

theorem txMapOf_TX_TYPE (t : Transaction) :
    kvLookup (txMapOf t) "TX_TYPE".data = some (txTypeToken t.tx_type) := by
  unfold txMapOf
  rw [kvLookup_insert_ne _ _ _ _ (by decide), kvLookup_insert_ne _ _ _ _ (by decide),
    kvLookup_insert_ne _ _ _ _ (by decide), kvLookup_insert_ne _ _ _ _ (by decide),
    kvLookup_insert_ne _ _ _ _ (by decide), kvLookup_insert_ne _ _ _ _ (by decide),
    kvLookup_insert_self]

theorem txMapOf_FROM_USER_ID (t : Transaction) :
    kvLookup (txMapOf t) "FROM_USER_ID".data = some (intToChars t.from_user_id) := by
  unfold txMapOf
  rw [kvLookup_insert_ne _ _ _ _ (by decide), kvLookup_insert_ne _ _ _ _ (by decide),
    kvLookup_insert_ne _ _ _ _ (by decide), kvLookup_insert_ne _ _ _ _ (by decide),
    kvLookup_insert_ne _ _ _ _ (by decide), kvLookup_insert_self]

theorem txMapOf_TO_USER_ID (t : Transaction) :
    kvLookup (txMapOf t) "TO_USER_ID".data = some (intToChars t.to_user_id) := by
  unfold txMapOf
  rw [kvLookup_insert_ne _ _ _ _ (by decide), kvLookup_insert_ne _ _ _ _ (by decide),
    kvLookup_insert_ne _ _ _ _ (by decide), kvLookup_insert_ne _ _ _ _ (by decide),
    kvLookup_insert_self]

theorem txMapOf_AMOUNT (t : Transaction) :
    kvLookup (txMapOf t) "AMOUNT".data = some (intToChars t.amount) := by
  unfold txMapOf
  rw [kvLookup_insert_ne _ _ _ _ (by decide), kvLookup_insert_ne _ _ _ _ (by decide),
    kvLookup_insert_ne _ _ _ _ (by decide), kvLookup_insert_self]

theorem txMapOf_TIMESTAMP (t : Transaction) :
    kvLookup (txMapOf t) "TIMESTAMP".data = some (intToChars t.timestamp) := by
  unfold txMapOf
  rw [kvLookup_insert_ne _ _ _ _ (by decide), kvLookup_insert_ne _ _ _ _ (by decide),
    kvLookup_insert_self]

theorem txMapOf_STATUS (t : Transaction) :
    kvLookup (txMapOf t) "STATUS".data = some (statusToken t.status) := by
  unfold txMapOf
  rw [kvLookup_insert_ne _ _ _ _ (by decide), kvLookup_insert_self]

theorem txMapOf_DESCRIPTION (t : Transaction) :
    kvLookup (txMapOf t) "DESCRIPTION".data = some t.description := by
  unfold txMapOf
  rw [kvLookup_insert_self]

theorem txTypeOfToken_token (k : TxType) : txTypeOfToken (txTypeToken k) = .ok k := by
  cases k <;> rfl

theorem statusOfToken_token (s : Status) : statusOfToken (statusToken s) = .ok s := by
  cases s <;> rfl

theorem txtParseMap_txMapOf (t : Transaction) (h : WFTx t) :
    txtParseMap (txMapOf t) = .ok t := by
  obtain ⟨hid, hf1, hf2, ht1, ht2, ha1, ha2, hs1, hs2⟩ := h
  rw [txtParseMap]
  rw [show kvGetU64 (txMapOf t) "TX_ID".data = .ok t.tx_id from by
    rw [kvGetU64, kvGet, txMapOf_TX_ID]
    dsimp only
    rw [parseU64_natToChars _ hid]]
  rw [show kvGet (txMapOf t) "TX_TYPE".data = .ok (txTypeToken t.tx_type) from by
    rw [kvGet, txMapOf_TX_TYPE]]
  dsimp only
  rw [txTypeOfToken_token]
  rw [show kvGetI64 (txMapOf t) "FROM_USER_ID".data = .ok t.from_user_id from by
    rw [kvGetI64, kvGet, txMapOf_FROM_USER_ID]
    dsimp only
    rw [parseI64_intToChars _ hf1 hf2]]
  rw [show kvGetI64 (txMapOf t) "TO_USER_ID".data = .ok t.to_user_id from by
    rw [kvGetI64, kvGet, txMapOf_TO_USER_ID]
    dsimp only
    rw [parseI64_intToChars _ ht1 ht2]]
  rw [show kvGetI64 (txMapOf t) "AMOUNT".data = .ok t.amount from by
    rw [kvGetI64, kvGet, txMapOf_AMOUNT]
    dsimp only
    rw [parseI64_intToChars _ ha1 ha2]]
  rw [show kvGetI64 (txMapOf t) "TIMESTAMP".data = .ok t.timestamp from by
    rw [kvGetI64, kvGet, txMapOf_TIMESTAMP]
    dsimp only
    rw [parseI64_intToChars _ hs1 hs2]]
  rw [show kvGet (txMapOf t) "STATUS".data = .ok (statusToken t.status) from by
    rw [kvGet, txMapOf_STATUS]]
  dsimp only
  rw [statusOfToken_token]
  rw [show kvGet (txMapOf t) "DESCRIPTION".data = .ok t.description from by
    rw [kvGet, txMapOf_DESCRIPTION]]

theorem head?_append_of_ne_nil {l1 l2 : List Char} (h : l1 ≠ []) :
    (l1 ++ l2).head? = l1.head? := by
  cases l1 with
  | nil => exact absurd rfl h
  | cons c cs => rfl

theorem txtGo_step_kvline (key V : List Char) (restLines : List (List Char))
    (cur : List (List Char × List Char))
    (hkne : key ≠ [])
    (hkey1 : key.head? ≠ some '#')
    (hkey2 : ∀ c ∈ key.head?, isWsChar c = false)
    (hkeyc : ':' ∉ key)
    (hktrim : trimChars key = key)
    (hV1 : V ≠ [])
    (hV2 : ∀ c ∈ V.getLast?, isWsChar c = false) :
    txtGo ((key ++ ':' :: (' ' :: V)) :: restLines) cur =
      txtGo restLines (kvInsert cur key (trimQuotes (trimChars (' ' :: V)))) := by
  have hlast : (key ++ ':' :: (' ' :: V)).getLast? = V.getLast? := by
    rw [List.getLast?_append_cons,
      show (':' :: (' ' :: V)) = [':'] ++ ' ' :: V from rfl,
      List.getLast?_append_cons,
      show (' ' :: V) = [' '] ++ V from rfl,
      List.getLast?_append_of_ne_nil _ hV1]
  have hline : trimChars (key ++ ':' :: (' ' :: V)) = key ++ ':' :: (' ' :: V) := by
    apply trimChars_eq_self
    · rw [head?_append_of_ne_nil hkne]
      exact hkey2
    · rw [hlast]
      exact hV2
  rw [txtGo_step_insert _ _ _ key (' ' :: V)
    (by rw [hline, head?_append_of_ne_nil hkne]; exact hkey1)
    (by rw [hline]; exact splitOnceColon_append key _ hkeyc), hktrim]

theorem trimChars_txtCommentLine (i : Nat) (t : Transaction) :
    trimChars (txtCommentLine i t) = txtCommentLine i t := by
  apply trimChars_eq_self
  · rw [show (txtCommentLine i t).head? = some '#' from rfl]
    intro c hc
    simp only [Option.mem_def, Option.some.injEq] at hc
    subst hc
    decide
  · rw [txtCommentLine, List.getLast?_append_of_ne_nil _ (by decide)]
    intro c hc
    rw [show (")".data : List Char).getLast? = some ')' from rfl] at hc
    simp only [Option.mem_def, Option.some.injEq] at hc
    subst hc
    decide

theorem txtCommentLine_starts (i : Nat) (t : Transaction) :
    (trimChars (txtCommentLine i t)).head? = some '#' := by
  rw [trimChars_txtCommentLine]
  rfl

theorem txtGo_writeBody (t : Transaction) (rest : List (List Char)) (ht : txtRepr t) :
    txtGo (txtBodyLines t ++ rest) [] = txtGo rest (txMapOf t) := by
  obtain ⟨hwf, hnl, hcr, hq1, hq2⟩ := ht
  rw [txtBodyLines]
  rw [show ([ "TX_ID: ".data ++ natToChars t.tx_id,
    "TX_TYPE: ".data ++ txTypeToken t.tx_type,
    "FROM_USER_ID: ".data ++ intToChars t.from_user_id,
    "TO_USER_ID: ".data ++ intToChars t.to_user_id,
    "AMOUNT: ".data ++ intToChars t.amount,
    "TIMESTAMP: ".data ++ intToChars t.timestamp,
    "STATUS: ".data ++ statusToken t.status,
    "DESCRIPTION: \"".data ++ t.description ++ "\"".data,
    ([] : List Char) ] : List (List Char)) ++ rest =
    ("TX_ID: ".data ++ natToChars t.tx_id) ::
    ("TX_TYPE: ".data ++ txTypeToken t.tx_type) ::
    ("FROM_USER_ID: ".data ++ intToChars t.from_user_id) ::
    ("TO_USER_ID: ".data ++ intToChars t.to_user_id) ::
    ("AMOUNT: ".data ++ intToChars t.amount) ::
    ("TIMESTAMP: ".data ++ intToChars t.timestamp) ::
    ("STATUS: ".data ++ statusToken t.status) ::
    ("DESCRIPTION: \"".data ++ t.description ++ "\"".data) ::
    ([] : List Char) :: rest from rfl]
  rw [show "TX_ID: ".data ++ natToChars t.tx_id =
    "TX_ID".data ++ ':' :: (' ' :: natToChars t.tx_id) from rfl]
  rw [txtGo_step_kvline _ _ _ _ (by decide) (by decide) (by decide) (by decide) (by decide)
    (natToChars_ne_nil _) (getLast?_cond (natToChars_no_ws _)), trimVal_nat]
  rw [show "TX_TYPE: ".data ++ txTypeToken t.tx_type =
    "TX_TYPE".data ++ ':' :: (' ' :: txTypeToken t.tx_type) from rfl]
  rw [txtGo_step_kvline _ _ _ _ (by decide) (by decide) (by decide) (by decide) (by decide)
    (by cases t.tx_type <;> decide)
    (by cases t.tx_type <;> decide), trimVal_txType]
  rw [show "FROM_USER_ID: ".data ++ intToChars t.from_user_id =
    "FROM_USER_ID".data ++ ':' :: (' ' :: intToChars t.from_user_id) from rfl]
  rw [txtGo_step_kvline _ _ _ _ (by decide) (by decide) (by decide) (by decide) (by decide)
    (intToChars_ne_nil _) (getLast?_cond (intToChars_no_ws _)), trimVal_int]
  rw [show "TO_USER_ID: ".data ++ intToChars t.to_user_id =
    "TO_USER_ID".data ++ ':' :: (' ' :: intToChars t.to_user_id) from rfl]
  rw [txtGo_step_kvline _ _ _ _ (by decide) (by decide) (by decide) (by decide) (by decide)
    (intToChars_ne_nil _) (getLast?_cond (intToChars_no_ws _)), trimVal_int]
  rw [show "AMOUNT: ".data ++ intToChars t.amount =
    "AMOUNT".data ++ ':' :: (' ' :: intToChars t.amount) from rfl]
  rw [txtGo_step_kvline _ _ _ _ (by decide) (by decide) (by decide) (by decide) (by decide)
    (intToChars_ne_nil _) (getLast?_cond (intToChars_no_ws _)), trimVal_int]
  rw [show "TIMESTAMP: ".data ++ intToChars t.timestamp =
    "TIMESTAMP".data ++ ':' :: (' ' :: intToChars t.timestamp) from rfl]
  rw [txtGo_step_kvline _ _ _ _ (by decide) (by decide) (by decide) (by decide) (by decide)
    (intToChars_ne_nil _) (getLast?_cond (intToChars_no_ws _)), trimVal_int]
  rw [show "STATUS: ".data ++ statusToken t.status =
    "STATUS".data ++ ':' :: (' ' :: statusToken t.status) from rfl]
  rw [txtGo_step_kvline _ _ _ _ (by decide) (by decide) (by decide) (by decide) (by decide)
    (by cases t.status <;> decide)
    (by cases t.status <;> decide), trimVal_status]
  rw [show "DESCRIPTION: \"".data ++ t.description ++ "\"".data =
    "DESCRIPTION".data ++ ':' :: (' ' :: ('"' :: (t.description ++ ['"']))) from by
      rw [show ("DESCRIPTION: \"".data : List Char) =
        "DESCRIPTION".data ++ [':', ' ', '"'] from by decide]
      simp]
  rw [txtGo_step_kvline _ _ _ _ (by decide) (by decide) (by decide) (by decide) (by decide)
    (by simp) (by
      intro c hc
      have hg : ('"' :: (t.description ++ ['"'])).getLast? = some '"' := by
        rw [← List.cons_append]
        exact List.getLast?_concat _
      rw [hg] at hc
      simp only [Option.mem_def, Option.some.injEq] at hc
      subst hc
      decide), trimVal_desc _ hq1 hq2]
  rw [txtGo_step_skip _ _ _ (by decide) (by decide)]
  rfl

theorem txtGo_writeRecord (i : Nat) (t : Transaction) (rest : List (List Char))
    (ht : txtRepr t) :
    txtGo (txtWriteRecord i t ++ rest) [] = txtGo rest (txMapOf t) := by
  rw [txtWriteRecord, List.cons_append,
    txtGo_step_comment_empty _ _ (txtCommentLine_starts i t),
    txtGo_writeBody t rest ht]

theorem txtGo_writeRecord_pending (i : Nat) (t2 t : Transaction)
    (rest : List (List Char)) (ht2 : txtRepr t2) (htw : WFTx t) :
    txtGo (txtWriteRecord i t2 ++ rest) (txMapOf t) =
      match txtGo rest (txMapOf t2) with
      | .error e => .error e
      | .ok l => .ok (t :: l) := by
  rw [txtWriteRecord, List.cons_append,
    txtGo_step_flush _ _ _ (txtCommentLine_starts i t2) (txMapOf_ne_nil t),
    txtParseMap_txMapOf t htw, txtGo_writeBody t2 rest ht2]

theorem txtGo_writeLines (L : List Transaction) :
    ∀ i, (∀ t ∈ L, txtRepr t) →
      txtGo (txtWriteLines i L) [] = .ok L ∧
      ∀ t, WFTx t → txtGo (txtWriteLines i L) (txMapOf t) = .ok (t :: L) := by
  induction L with
  | nil =>
    intro i _
    constructor
    · rfl
    · intro t htw
      rw [txtWriteLines, txtGo, if_neg (txMapOf_ne_nil t), txtParseMap_txMapOf t htw]
  | cons t2 L ih =>
    intro i hL
    have ht2 := hL t2 (List.mem_cons_self t2 L)
    have hrest := ih (i + 1) (fun x hx => hL x (List.mem_cons_of_mem t2 hx))
    constructor
    · rw [txtWriteLines, txtGo_writeRecord i t2 _ ht2, hrest.2 t2 ht2.1]
    · intro t htw
      rw [txtWriteLines, txtGo_writeRecord_pending i t2 t _ ht2 htw, hrest.2 t2 ht2.1]

theorem txTypeToken_no_nl (k : TxType) : '\n' ∉ txTypeToken k := by
  cases k <;> decide

theorem statusToken_no_nl (s : Status) : '\n' ∉ statusToken s := by
  cases s <;> decide

/-- Lines written by `TxtFormat::write_all` contain no newline and do not
end in a carriage return, so line splitting inverts line joining. -/
theorem txtWriteLines_clean (L : List Transaction) (hL : ∀ t ∈ L, txtRepr t) :
    ∀ i, ∀ l ∈ txtWriteLines i L, '\n' ∉ l ∧ l.getLast? ≠ some '\r' := by
  induction L with
  | nil => intro i l hl; simp [txtWriteLines] at hl
  | cons t L ih =>
    intro i l hl
    obtain ⟨⟨hwf, hnl, hcr, hq1, hq2⟩, hLrest⟩ :
        txtRepr t ∧ ∀ x ∈ L, txtRepr x :=
      ⟨hL t (List.mem_cons_self t L), fun x hx => hL x (List.mem_cons_of_mem t hx)⟩
    rw [txtWriteLines] at hl
    rcases List.mem_append.mp hl with hm | hm
    · rw [txtWriteRecord] at hm
      rcases List.mem_cons.mp hm with rfl | hm
      · constructor
        · intro hin
          rw [txtCommentLine] at hin
          rcases List.mem_append.mp hin with hin | hin
          · rcases List.mem_append.mp hin with hin | hin
            · rcases List.mem_append.mp hin with hin | hin
              · rcases List.mem_append.mp hin with hin | hin
                · simp at hin
                · exact absurd (natToChars_digits _ _ hin) (by decide)
              · simp at hin
            · exact txTypeToken_no_nl _ hin
          · simp at hin
        · rw [txtCommentLine, List.getLast?_append_of_ne_nil _ (by decide)]
          decide
      · rw [txtBodyLines] at hm
        have hdigit_nl : ∀ n : Nat, '\n' ∉ natToChars n := by
          intro n hin
          exact absurd (natToChars_digits _ _ hin) (by decide)
        have hint_nl : ∀ x : Int, '\n' ∉ intToChars x := by
          intro x hin
          rw [intToChars] at hin
          split at hin
          · rcases List.mem_cons.mp hin with he | hm2
            · exact absurd he (by decide)
            · exact hdigit_nl _ hm2
          · exact hdigit_nl _ hin
        have hdigit_cr : ∀ n : Nat, ∀ c ∈ (natToChars n).getLast?, c ≠ '\r' := by
          intro n c hc he
          subst he
          exact absurd (natToChars_digits _ _ (mem_of_getLast?Char hc)) (by decide)
        have hint_cr : ∀ x : Int, ∀ c ∈ (intToChars x).getLast?, c ≠ '\r' := by
          intro x c hc he
          subst he
          have hm2 := mem_of_getLast?Char hc
          rw [intToChars] at hm2
          split at hm2
          · rcases List.mem_cons.mp hm2 with he2 | hm3
            · exact absurd he2 (by decide)
            · exact absurd (natToChars_digits _ _ hm3) (by decide)
          · exact absurd (natToChars_digits _ _ hm2) (by decide)
        have hlast_ne : ∀ (A V : List Char), V ≠ [] →
            (∀ c ∈ V.getLast?, c ≠ '\r') → (A ++ V).getLast? ≠ some '\r' := by
          intro A V hV hVc he
          rw [List.getLast?_append_of_ne_nil _ hV] at he
          exact hVc '\r' (by rw [he]; rfl) rfl
        simp only [List.mem_cons, List.not_mem_nil, or_false] at hm
        rcases hm with rfl | rfl | rfl | rfl | rfl | rfl | rfl | rfl | rfl
        · exact ⟨fun hin => (by
            rcases List.mem_append.mp hin with hin | hin
            · simp at hin
            · exact hdigit_nl _ hin),
            hlast_ne _ _ (natToChars_ne_nil _) (hdigit_cr _)⟩
        · refine ⟨fun hin => ?_, ?_⟩
          · rcases List.mem_append.mp hin with hin | hin
            · simp at hin
            · exact txTypeToken_no_nl _ hin
          · rw [List.getLast?_append_of_ne_nil _ (by cases t.tx_type <;> decide)]
            cases t.tx_type <;> decide
        · exact ⟨fun hin => (by
            rcases List.mem_append.mp hin with hin | hin
            · simp at hin
            · exact hint_nl _ hin),
            hlast_ne _ _ (intToChars_ne_nil _) (hint_cr _)⟩
        · exact ⟨fun hin => (by
            rcases List.mem_append.mp hin with hin | hin
            · simp at hin
            · exact hint_nl _ hin),
            hlast_ne _ _ (intToChars_ne_nil _) (hint_cr _)⟩
        · exact ⟨fun hin => (by
            rcases List.mem_append.mp hin with hin | hin
            · simp at hin
            · exact hint_nl _ hin),
            hlast_ne _ _ (intToChars_ne_nil _) (hint_cr _)⟩
        · exact ⟨fun hin => (by
            rcases List.mem_append.mp hin with hin | hin
            · simp at hin
            · exact hint_nl _ hin),
            hlast_ne _ _ (intToChars_ne_nil _) (hint_cr _)⟩
        · refine ⟨fun hin => ?_, ?_⟩
          · rcases List.mem_append.mp hin with hin | hin
            · simp at hin
            · exact statusToken_no_nl _ hin
          · rw [List.getLast?_append_of_ne_nil _ (by cases t.status <;> decide)]
            cases t.status <;> decide
        · refine ⟨fun hin => ?_, ?_⟩
          · rcases List.mem_append.mp hin with hin | hin
            · rcases List.mem_append.mp hin with hin | hin
              · simp at hin
              · exact hnl hin
            · simp at hin
          · rw [List.getLast?_append_of_ne_nil _ (by decide)]
            decide
        · simp
    · exact ih hLrest (i + 1) l hm

/-- Block-text round trip at the character-stream level. -/
theorem txtReadChars_writeChars (L : List Transaction) (hL : ∀ t ∈ L, txtRepr t) :
    txtReadChars (txtWriteChars L) = .ok L := by
  rw [txtWriteChars, txtReadChars,
    show joinLines (txtWriteLines 1 L) = joinLines (txtWriteLines 1 L) ++ [] by simp,
    splitLines_join _ _ (txtWriteLines_clean L hL 1),
    show splitLines [] = [] from rfl, List.append_nil]
  exact (txtGo_writeLines L 1 hL).1

theorem csvParseQuoted_escape (f : List Char) :
    ∀ tail, tail.head? ≠ some '"' →
      csvParseQuoted (csvEscapeField f ++ '"' :: tail) = some (f, tail) := by
  induction f with
  | nil =>
    intro tail htail
    rw [show csvEscapeField [] ++ '"' :: tail = '"' :: tail from by simp [csvEscapeField],
      csvParseQuoted.eq_def]
    dsimp only
    rw [if_pos rfl]
    cases tail with
    | nil => rfl
    | cons c2 r2 =>
      have hc2 : c2 ≠ '"' := by
        intro he
        exact htail (by rw [he]; rfl)
      simp only [if_neg hc2]
  | cons c f ih =>
    intro tail htail
    by_cases hc : c = '"'
    · subst hc
      rw [show csvEscapeField ('"' :: f) ++ '"' :: tail =
          '"' :: ('"' :: (csvEscapeField f ++ '"' :: tail)) from by simp [csvEscapeField],
        csvParseQuoted.eq_def]
      dsimp only
      rw [if_pos rfl]
      simp only [if_pos rfl]
      rw [ih tail htail]
      rfl
    · rw [show csvEscapeField (c :: f) ++ '"' :: tail =
          c :: (csvEscapeField f ++ '"' :: tail) from by simp [csvEscapeField, hc],
        csvParseQuoted.eq_def]
      dsimp only
      rw [if_neg hc, ih tail htail]
      rfl

theorem takeWhile_nostop (f : List Char) (h : ∀ c ∈ f, csvStop c = false)
    (d : Char) (hd : csvStop d = true) (r : List Char) :
    (f ++ d :: r).takeWhile (fun c => !csvStop c) = f ∧
    (f ++ d :: r).dropWhile (fun c => !csvStop c) = d :: r := by
  induction f with
  | nil =>
    simp [List.takeWhile_cons, List.dropWhile_cons, hd]
  | cons c f ih =>
    have hc := h c (List.mem_cons_self c f)
    obtain ⟨ih1, ih2⟩ := ih (fun x hx => h x (List.mem_cons_of_mem c hx))
    constructor
    · rw [List.cons_append, List.takeWhile_cons]
      simp only [hc, Bool.not_false, if_true, ih1, reduceIte]
    · rw [List.cons_append, List.dropWhile_cons]
      simp only [hc, Bool.not_false, if_true, ih2, reduceIte]

theorem csvNeedsQuote_false (f : List Char) (h : csvNeedsQuote f = false) :
    ∀ c ∈ f, csvStop c = false ∧ c ≠ '"' := by
  intro c hc
  rw [csvNeedsQuote, List.any_eq_false] at h
  have h2 := h c hc
  simp only [Bool.or_eq_true, decide_eq_true_eq, not_or] at h2
  obtain ⟨⟨⟨h1, hq⟩, hn⟩, hr⟩ := h2
  refine ⟨?_, hq⟩
  rw [csvStop]
  simp only [Bool.or_eq_false_iff, decide_eq_false_iff_not]
  exact ⟨⟨h1, hn⟩, hr⟩

theorem csvParseField_write (f : List Char) (d : Char) (r : List Char)
    (hd : csvStop d = true) (hdq : d ≠ '"') :
    csvParseField (csvWriteField f ++ d :: r) = some (f, d :: r) := by
  rw [csvWriteField]
  by_cases hq : csvNeedsQuote f = true
  · rw [if_pos hq, List.cons_append, csvParseField]
    rw [if_pos (show (('"' :: ((csvEscapeField f ++ ['"']) ++ d :: r)) :
      List Char).head? = some '"' from rfl)]
    rw [show (('"' :: ((csvEscapeField f ++ ['"']) ++ d :: r)) : List Char).tail =
        csvEscapeField f ++ '"' :: (d :: r) from by simp]
    exact csvParseQuoted_escape f (d :: r) (by
      intro he
      simp only [List.head?_cons, Option.some.injEq] at he
      exact hdq he)
  · have hq' : csvNeedsQuote f = false := by
      cases hqq : csvNeedsQuote f
      · rfl
      · exact absurd hqq hq
    rw [if_neg hq]
    have hfchars := csvNeedsQuote_false f hq'
    rw [csvParseField]
    have hhead : ¬ (f ++ d :: r).head? = some '"' := by
      cases f with
      | nil =>
        simp only [List.nil_append, List.head?_cons]
        intro he
        injection he with he
        exact hdq he
      | cons c cs =>
        simp only [List.cons_append, List.head?_cons]
        intro he
        injection he with he
        exact (hfchars c (List.mem_cons_self c cs)).2 he
    rw [if_neg hhead]
    obtain ⟨h1, h2⟩ := takeWhile_nostop f (fun c hc => (hfchars c hc).1) d hd r
    rw [h1, h2]

theorem csvWriteRow_single (f : List Char) :
    csvWriteRow [f] = csvWriteField f ++ ['\n'] := by
  simp [csvWriteRow]

theorem csvWriteRow_cons_cons (f1 f2 : List Char) (fs : List (List Char)) :
    csvWriteRow (f1 :: f2 :: fs) = csvWriteField f1 ++ ',' :: csvWriteRow (f2 :: fs) := by
  simp [csvWriteRow, List.intersperse]

theorem csvParseRow_write (fs : List (List Char)) (hne : fs ≠ []) :
    ∀ fuel rest, fs.length ≤ fuel →
      csvParseRow fuel (csvWriteRow fs ++ rest) = some (fs, rest) := by
  induction fs with
  | nil => exact absurd rfl hne
  | cons f fs ih =>
    intro fuel rest hf
    obtain ⟨g, rfl⟩ : ∃ g, fuel = g + 1 := ⟨fuel - 1, by simp at hf; omega⟩
    cases fs with
    | nil =>
      rw [csvWriteRow_single, List.append_assoc, List.cons_append, List.nil_append,
        csvParseRow, csvParseField_write f '\n' rest (by decide) (by decide)]
      dsimp only
      rw [if_neg (by decide), if_pos rfl]
    | cons f2 fs' =>
      rw [csvWriteRow_cons_cons, List.append_assoc, List.cons_append,
        csvParseRow, csvParseField_write f ',' _ (by decide) (by decide)]
      dsimp only
      rw [if_pos rfl, ih (by simp) g rest (by simp at hf ⊢; omega)]
      rfl

theorem csvWriteRow_ne_nil (fs : List (List Char)) : csvWriteRow fs ≠ [] := by
  simp [csvWriteRow]

theorem length_le_csvWriteRow (fs : List (List Char)) (h : fs ≠ []) :
    fs.length ≤ (csvWriteRow fs).length := by
  induction fs with
  | nil => exact absurd rfl h
  | cons f fs ih =>
    cases fs with
    | nil =>
      rw [csvWriteRow_single]
      simp
    | cons f2 fs' =>
      rw [csvWriteRow_cons_cons]
      have := ih (by simp)
      simp only [List.length_cons, List.length_append] at this ⊢
      omega

theorem csvWriteRow_head_nostop (f1 f2 : List Char) (fs : List (List Char)) :
    ∀ c, (csvWriteRow (f1 :: f2 :: fs)).head? = some c → ¬(c = '\n' ∨ c = '\r') := by
  intro c hc
  rw [csvWriteRow_cons_cons] at hc
  by_cases hq : csvNeedsQuote f1 = true
  · rw [csvWriteField, if_pos hq] at hc
    simp only [List.cons_append, List.head?_cons, Option.some.injEq] at hc
    subst hc
    decide
  · have hq' : csvNeedsQuote f1 = false := by
      cases hqq : csvNeedsQuote f1
      · rfl
      · exact absurd hqq hq
    rw [csvWriteField, if_neg hq] at hc
    cases f1 with
    | nil =>
      simp only [List.nil_append, List.head?_cons, Option.some.injEq] at hc
      subst hc
      decide
    | cons c0 w =>
      simp only [List.cons_append, List.head?_cons, Option.some.injEq] at hc
      subst hc
      have := (csvNeedsQuote_false _ hq' c0 (List.mem_cons_self c0 w)).1
      rw [csvStop] at this
      simp only [Bool.or_eq_false_iff, decide_eq_false_iff_not] at this
      rintro (rfl | rfl)
      · exact this.1.2 rfl
      · exact this.2 rfl

theorem csvParseRows_write (rows : List (List (List Char)))
    (hr : ∀ r ∈ rows, 2 ≤ r.length) :
    ∀ fuel, rows.length ≤ fuel →
      csvParseRows fuel ((rows.map csvWriteRow).flatten) = some rows := by
  induction rows with
  | nil =>
    intro fuel _
    cases fuel <;> rfl
  | cons r rows ih =>
    intro fuel hf
    obtain ⟨g, rfl⟩ : ∃ g, fuel = g + 1 := ⟨fuel - 1, by simp at hf; omega⟩
    have hr2 : 2 ≤ r.length := hr r (List.mem_cons_self r rows)
    obtain ⟨f1, rtl, hfr⟩ : ∃ f1 rtl, r = f1 :: rtl := by
      cases r with
      | nil => simp at hr2
      | cons a b => exact ⟨a, b, rfl⟩
    obtain ⟨f2, rtl2, hfr2⟩ : ∃ f2 rtl2, rtl = f2 :: rtl2 := by
      cases rtl with
      | nil => rw [hfr] at hr2; simp at hr2
      | cons a b => exact ⟨a, b, rfl⟩
    obtain ⟨c0, w0, hw⟩ : ∃ c0 w0, csvWriteRow r = c0 :: w0 :=
      List.exists_cons_of_ne_nil (csvWriteRow_ne_nil r)
    rw [List.map_cons, List.flatten_cons, hw, List.cons_append, csvParseRows]
    have hstop : ¬(c0 = '\n' ∨ c0 = '\r') := by
      apply csvWriteRow_head_nostop f1 f2 (rtl2) c0
      rw [← hfr2, ← hfr, hw]
      rfl
    rw [if_neg hstop,
      show c0 :: (w0 ++ (rows.map csvWriteRow).flatten) =
        csvWriteRow r ++ (rows.map csvWriteRow).flatten from by rw [hw]; rfl,
      csvParseRow_write r (by rw [hfr]; simp) _ _ (by
        have h1 := length_le_csvWriteRow r (by rw [hfr]; simp)
        simp only [List.length_append]
        omega)]
    dsimp only
    rw [ih (fun x hx => hr x (List.mem_cons_of_mem r hx)) g (by simp at hf; omega)]
    rfl

theorem csvRecordToTx_rowOf (t : Transaction) (h : WFTx t) :
    csvRecordToTx (csvRowOf t) = .ok t := by
  obtain ⟨hid, hf1, hf2, ht1, ht2, ha1, ha2, hs1, hs2⟩ := h
  rw [csvRowOf, csvRecordToTx]
  rw [parseU64_natToChars _ hid]
  dsimp only
  rw [txTypeOfToken_token]
  dsimp only
  rw [parseI64_intToChars _ hf1 hf2]
  dsimp only
  rw [parseI64_intToChars _ ht1 ht2]
  dsimp only
  rw [parseI64_intToChars _ ha1 ha2]
  dsimp only
  rw [parseI64_intToChars _ hs1 hs2]
  dsimp only
  rw [statusOfToken_token]

theorem csvConvertRows_map (L : List Transaction) (hL : ∀ t ∈ L, WFTx t) :
    csvConvertRows 8 (L.map csvRowOf) = .ok L := by
  induction L with
  | nil => rfl
  | cons t L ih =>
    rw [List.map_cons, csvConvertRows,
      if_pos (show (csvRowOf t).length = 8 from by rw [csvRowOf]; rfl),
      csvRecordToTx_rowOf t (hL t (List.mem_cons_self t L)),
      ih (fun x hx => hL x (List.mem_cons_of_mem t hx))]

theorem length_le_csvFlatten (rows : List (List (List Char))) :
    rows.length ≤ ((rows.map csvWriteRow).flatten).length := by
  induction rows with
  | nil => simp
  | cons r rows ih =>
    rw [List.map_cons, List.flatten_cons, List.length_append]
    obtain ⟨c0, w0, hw⟩ := List.exists_cons_of_ne_nil (csvWriteRow_ne_nil r)
    rw [hw]
    simp only [List.length_cons]
    omega

/-- CSV round trip at the character-stream level. -/
theorem csvReadChars_writeChars (L : List Transaction) (hL : ∀ t ∈ L, WFTx t) :
    csvReadChars (csvWriteChars L) = .ok L := by
  have hrows : ∀ r ∈ csvHeader :: L.map csvRowOf, 2 ≤ r.length := by
    intro r hrm
    rcases List.mem_cons.mp hrm with rfl | hm
    · decide
    · obtain ⟨t, _, rfl⟩ := List.mem_map.mp hm
      rw [csvRowOf]
      simp
  rw [csvReadChars, csvWriteChars,
    csvParseRows_write (csvHeader :: L.map csvRowOf) hrows _ (by
      have := length_le_csvFlatten (csvHeader :: L.map csvRowOf)
      omega)]
  dsimp only
  rw [show (csvHeader : List (List Char)).length = 8 from rfl]
  exact csvConvertRows_map L hL

/-- The codec round-trip law, uniformly over the three formats. -/
theorem readAllFmt_writeAllFmt (f : Fmt) (L : List Transaction)
    (h : ∀ t ∈ L, reprFmt f t) : readAllFmt f (writeAllFmt f L) = .ok L := by
  cases f
  · exact binReadAll_writeAll L h
  · rw [readAllFmt, writeAllFmt, utf8Decode_utf8Encode]
    exact csvReadChars_writeChars L h
  · rw [readAllFmt, writeAllFmt, utf8Decode_utf8Encode]
    exact txtReadChars_writeChars L h

theorem mapLookup_insert_self (m : List (Nat × Transaction)) (k : Nat) (v : Transaction) :
    mapLookup (mapInsert m k v) k = some v := by
  induction m with
  | nil => simp [mapInsert, mapLookup]
  | cons p rest ih =>
    obtain ⟨k', v'⟩ := p
    simp only [mapInsert]
    split
    · simp [mapLookup]
    · next hne => simp only [mapLookup, if_neg hne, ih]

theorem mapLookup_insert_ne (m : List (Nat × Transaction)) (k : Nat) (v : Transaction)
    (k' : Nat) (h : k' ≠ k) : mapLookup (mapInsert m k v) k' = mapLookup m k' := by
  induction m with
  | nil =>
    simp only [mapInsert, mapLookup]
    rw [if_neg (fun he => h he.symm)]
  | cons p rest ih =>
    obtain ⟨a, b⟩ := p
    simp only [mapInsert]
    split
    · next hak =>
      subst hak
      simp only [mapLookup, if_neg (fun he : a = k' => h he.symm)]
    · simp only [mapLookup, ih]

theorem mem_keys_mapInsert (m : List (Nat × Transaction)) (k : Nat) (v : Transaction)
    (x : Nat) : x ∈ (mapInsert m k v).map Prod.fst ↔ x = k ∨ x ∈ m.map Prod.fst := by
  induction m with
  | nil => simp [mapInsert]
  | cons p rest ih =>
    obtain ⟨a, b⟩ := p
    simp only [mapInsert]
    split
    · next hak =>
      subst hak
      simp only [List.map_cons, List.mem_cons]
      constructor
      · rintro (rfl | hm)
        · exact Or.inl rfl
        · exact Or.inr (Or.inr hm)
      · rintro (rfl | rfl | hm)
        · exact Or.inl rfl
        · exact Or.inl rfl
        · exact Or.inr hm
    · simp only [List.map_cons, List.mem_cons, ih]
      tauto

theorem keys_nodup_mapInsert (m : List (Nat × Transaction)) (k : Nat) (v : Transaction)
    (h : (m.map Prod.fst).Nodup) : ((mapInsert m k v).map Prod.fst).Nodup := by
  induction m with
  | nil => simp [mapInsert]
  | cons p rest ih =>
    obtain ⟨a, b⟩ := p
    simp only [List.map_cons, List.nodup_cons] at h
    simp only [mapInsert]
    split
    · next hak =>
      subst hak
      simp only [List.map_cons, List.nodup_cons]
      exact h
    · next hak =>
      simp only [List.map_cons, List.nodup_cons, mem_keys_mapInsert]
      refine ⟨?_, ih h.2⟩
      rintro (rfl | hm)
      · exact hak rfl
      · exact h.1 hm

theorem buildMap_keys_nodup (L : List Transaction) :
    ((buildMap L).map Prod.fst).Nodup := by
  have hgen : ∀ (L : List Transaction) (m : List (Nat × Transaction)),
      (m.map Prod.fst).Nodup →
      ((L.foldl (fun m t => mapInsert m t.tx_id t) m).map Prod.fst).Nodup := by
    intro L
    induction L with
    | nil => intro m h; exact h
    | cons t L ih =>
      intro m h
      exact ih _ (keys_nodup_mapInsert m t.tx_id t h)
  exact hgen L [] (by simp)

theorem mapLookup_isSome_iff (m : List (Nat × Transaction)) (k : Nat) :
    (mapLookup m k).isSome ↔ k ∈ m.map Prod.fst := by
  induction m with
  | nil => simp [mapLookup]
  | cons p rest ih =>
    obtain ⟨a, b⟩ := p
    simp only [mapLookup, List.map_cons, List.mem_cons]
    split
    · next hak =>
      subst hak
      simp
    · next hak =>
      simp only [ih]
      constructor
      · exact Or.inr
      · rintro (rfl | hm)
        · exact absurd rfl hak
        · exact hm

theorem mapLookup_eq_some_iff (m : List (Nat × Transaction))
    (hnd : (m.map Prod.fst).Nodup) (k : Nat) (v : Transaction) :
    mapLookup m k = some v ↔ (k, v) ∈ m := by
  induction m with
  | nil => simp [mapLookup]
  | cons p rest ih =>
    obtain ⟨a, b⟩ := p
    simp only [List.map_cons, List.nodup_cons] at hnd
    rw [mapLookup]
    split
    · next hak =>
      subst hak
      constructor
      · intro he
        injection he with he
        subst he
        exact List.mem_cons_self _ _
      · intro hm
        rcases List.mem_cons.mp hm with he | hm2
        · rw [Prod.mk.injEq] at he
          rw [he.2]
        · exact absurd (List.mem_map.mpr ⟨(a, v), hm2, rfl⟩) hnd.1
    · next hak =>
      rw [ih hnd.2]
      constructor
      · intro hm
        exact List.mem_cons_of_mem _ hm
      · intro hm
        rcases List.mem_cons.mp hm with he | hm2
        · rw [Prod.mk.injEq] at he
          exact absurd he.1.symm hak
        · exact hm2

theorem buildMap_lastwins (L : List Transaction) (id : Nat) :
    mapLookup (buildMap L) id = List.find? (fun t => t.tx_id == id) L.reverse := by
  have hgen : ∀ (L : List Transaction) (m : List (Nat × Transaction)),
      mapLookup (L.foldl (fun m t => mapInsert m t.tx_id t) m) id =
        match List.find? (fun t => t.tx_id == id) L.reverse with
        | some t => some t
        | none => mapLookup m id := by
    intro L
    induction L with
    | nil => intro m; rfl
    | cons t L ih =>
      intro m
      rw [List.foldl_cons, ih, List.reverse_cons, List.find?_append]
      cases hfind : List.find? (fun t => t.tx_id == id) L.reverse with
      | some u => rfl
      | none =>
        by_cases hid : t.tx_id = id
        · rw [hid, mapLookup_insert_self]
          have h1 : List.find? (fun x => x.tx_id == id) [t] = some t := by
            simp [List.find?, hid]
          simp [h1]
        · rw [mapLookup_insert_ne _ _ _ _ (fun he => hid he.symm)]
          have h1 : List.find? (fun x => x.tx_id == id) [t] = none := by
            simp [List.find?, show (t.tx_id == id) = false from by simp [hid]]
          simp [h1]
  rw [buildMap, hgen L []]
  cases List.find? (fun t => t.tx_id == id) L.reverse <;> rfl

theorem mem_missingIn2 (l1 l2 : List Transaction) (id : Nat) :
    id ∈ missingIn2Of l1 l2 ↔
      (mapLookup (buildMap l1) id).isSome ∧ mapLookup (buildMap l2) id = none := by
  rw [missingIn2Of, List.mem_filter, ← mapLookup_isSome_iff]
  simp [Option.isNone_iff_eq_none]

theorem mem_missingIn1 (l1 l2 : List Transaction) (id : Nat) :
    id ∈ missingIn1Of l1 l2 ↔
      (mapLookup (buildMap l2) id).isSome ∧ mapLookup (buildMap l1) id = none := by
  rw [missingIn1Of, List.mem_filter, ← mapLookup_isSome_iff]
  simp [Option.isNone_iff_eq_none]

theorem mem_differing (l1 l2 : List Transaction) (id : Nat) (tA tB : Transaction) :
    (id, tA, tB) ∈ differingOf l1 l2 ↔
      mapLookup (buildMap l1) id = some tA ∧ mapLookup (buildMap l2) id = some tB ∧
      tA ≠ tB := by
  rw [differingOf, List.mem_filterMap]
  constructor
  · rintro ⟨⟨id', t'⟩, hm, hf⟩
    dsimp only at hf
    cases hl2 : mapLookup (buildMap l2) id' with
    | none => rw [hl2] at hf; exact absurd hf (by simp)
    | some t2 =>
      rw [hl2] at hf
      dsimp only at hf
      by_cases hne : t' = t2
      · rw [if_neg (by simpa using hne)] at hf
        exact absurd hf (by simp)
      · rw [if_pos hne] at hf
        injection hf with hf
        rw [Prod.mk.injEq] at hf
        obtain ⟨rfl, hf2⟩ := hf
        rw [Prod.mk.injEq] at hf2
        obtain ⟨rfl, rfl⟩ := hf2
        exact ⟨(mapLookup_eq_some_iff _ (buildMap_keys_nodup l1) _ _).mpr hm, hl2, hne⟩
  · rintro ⟨h1, h2, hne⟩
    refine ⟨(id, tA), (mapLookup_eq_some_iff _ (buildMap_keys_nodup l1) _ _).mp h1, ?_⟩
    dsimp only
    rw [h2]
    dsimp only
    rw [if_pos hne]

theorem compareLists_eq_Identical_iff (l1 l2 : List Transaction) :
    compareLists l1 l2 = .Identical ↔
      (missingIn1Of l1 l2 = [] ∧ missingIn2Of l1 l2 = [] ∧ differingOf l1 l2 = []) := by
  rw [compareLists]
  split
  · next h => simp [h]
  · next h =>
    constructor
    · intro hc
      exact CompareResult.noConfusion hc
    · intro hc
      exact absurd hc h

theorem compareLists_cases (l1 l2 : List Transaction) :
    compareLists l1 l2 = .Identical ∨
    compareLists l1 l2 =
      .Mismatch (missingIn1Of l1 l2) (missingIn2Of l1 l2) (differingOf l1 l2) := by
  rw [compareLists]
  split
  · exact Or.inl rfl
  · exact Or.inr rfl

theorem compareLists_self (L : List Transaction) : compareLists L L = .Identical := by
  rw [compareLists, if_pos]
  refine ⟨?_, ?_, ?_⟩
  · rw [missingIn1Of, List.filter_eq_nil_iff]
    intro id hid
    rw [← mapLookup_isSome_iff] at hid
    simp only [Bool.not_eq_true, Option.isNone_eq_false_iff]
    exact hid
  · rw [missingIn2Of, List.filter_eq_nil_iff]
    intro id hid
    rw [← mapLookup_isSome_iff] at hid
    simp only [Bool.not_eq_true, Option.isNone_eq_false_iff]
    exact hid
  · rw [differingOf, List.filterMap_eq_nil_iff]
    rintro ⟨id, t⟩ hm
    dsimp only
    rw [(mapLookup_eq_some_iff _ (buildMap_keys_nodup L) _ _).mpr hm]
    simp

theorem compareStreams_ok (f1 f2 : Fmt) (s1 s2 : List Nat)
    (l1 l2 : List Transaction)
    (h1 : readAllFmt f1 s1 = .ok l1) (h2 : readAllFmt f2 s2 = .ok l2) :
    compareStreams f1 s1 f2 s2 = .ok (compareLists l1 l2) := by
  rw [compareStreams, h1, h2]

theorem find?_dup_skip (p : Transaction → Bool) (A B : List Transaction)
    (t u : Transaction) (hpu : p t = p u) (hmem : u ∈ A) :
    List.find? p (A ++ t :: B) = List.find? p (A ++ B) := by
  rw [List.find?_append, List.find?_append]
  cases hfa : List.find? p A with
  | some a => rfl
  | none =>
    have hfu : p u = false := by
      have hall := List.find?_eq_none.mp hfa u hmem
      cases hpxu : p u
      · rfl
      · exact absurd hpxu hall
    have hft : p t = false := by rw [hpu, hfu]
    show List.find? p (t :: B) = List.find? p B
    rw [List.find?_cons]
    simp [hft]

theorem buildMap_dup_earlier (pre mid post : List Transaction) (t u : Transaction)
    (hid : t.tx_id = u.tx_id) (id : Nat) :
    mapLookup (buildMap (pre ++ t :: (mid ++ u :: post))) id =
      mapLookup (buildMap (pre ++ (mid ++ u :: post))) id := by
  rw [buildMap_lastwins, buildMap_lastwins]
  have hL : (pre ++ t :: (mid ++ u :: post)).reverse =
      (post.reverse ++ u :: mid.reverse) ++ t :: pre.reverse := by
    simp
  have hR : (pre ++ (mid ++ u :: post)).reverse =
      (post.reverse ++ u :: mid.reverse) ++ pre.reverse := by
    simp
  rw [hL, hR, find?_dup_skip _ _ _ t u (by simp [hid])
    (List.mem_append.mpr (Or.inr (List.mem_cons_self u _)))]

theorem compare_pointwise_inv (l1 l1' l2 : List Transaction)
    (h : ∀ id, mapLookup (buildMap l1) id = mapLookup (buildMap l1') id) :
    (∀ id, id ∈ missingIn2Of l1 l2 ↔ id ∈ missingIn2Of l1' l2) ∧
    (∀ id, id ∈ missingIn1Of l1 l2 ↔ id ∈ missingIn1Of l1' l2) ∧
    (∀ e, e ∈ differingOf l1 l2 ↔ e ∈ differingOf l1' l2) ∧
    (compareLists l1 l2 = .Identical ↔ compareLists l1' l2 = .Identical) := by
  have hm2 : ∀ id, id ∈ missingIn2Of l1 l2 ↔ id ∈ missingIn2Of l1' l2 := by
    intro id
    rw [mem_missingIn2, mem_missingIn2, h]
  have hm1 : ∀ id, id ∈ missingIn1Of l1 l2 ↔ id ∈ missingIn1Of l1' l2 := by
    intro id
    rw [mem_missingIn1, mem_missingIn1, h]
  have hd : ∀ e, e ∈ differingOf l1 l2 ↔ e ∈ differingOf l1' l2 := by
    rintro ⟨id, tA, tB⟩
    rw [mem_differing, mem_differing, h]
  refine ⟨hm2, hm1, hd, ?_⟩
  rw [compareLists_eq_Identical_iff, compareLists_eq_Identical_iff,
    List.eq_nil_iff_forall_not_mem, List.eq_nil_iff_forall_not_mem,
    List.eq_nil_iff_forall_not_mem, List.eq_nil_iff_forall_not_mem,
    List.eq_nil_iff_forall_not_mem, List.eq_nil_iff_forall_not_mem]
  constructor
  · rintro ⟨a, b, c⟩
    exact ⟨fun x => (hm1 x).not.mp (a x), fun x => (hm2 x).not.mp (b x),
      fun x => (hd x).not.mp (c x)⟩
  · rintro ⟨a, b, c⟩
    exact ⟨fun x => (hm1 x).not.mpr (a x), fun x => (hm2 x).not.mpr (b x),
      fun x => (hd x).not.mpr (c x)⟩

theorem readAllFmt_txt_encode (X : List Char) :
    readAllFmt .txt (utf8Encode X) = txtReadChars X := by
  rw [readAllFmt, utf8Decode_utf8Encode]

theorem kvLookup_insert_congr (m m' : List (List Char × List Char))
    (a v k : List Char) (h : kvLookup m k = kvLookup m' k) :
    kvLookup (kvInsert m a v) k = kvLookup (kvInsert m' a v) k := by
  by_cases hak : a = k
  · subst hak
    rw [kvLookup_insert_self, kvLookup_insert_self]
  · rw [kvLookup_insert_ne _ _ _ _ (fun he => hak he.symm),
      kvLookup_insert_ne _ _ _ _ (fun he => hak he.symm), h]

theorem txtParseMap_congr (m m' : List (List Char × List Char))
    (h : ∀ k ∈ txtRequiredKeys, kvLookup m k = kvLookup m' k) :
    txtParseMap m = txtParseMap m' := by
  have h1 := h "TX_ID".data (by decide)
  have h2 := h "TX_TYPE".data (by decide)
  have h3 := h "FROM_USER_ID".data (by decide)
  have h4 := h "TO_USER_ID".data (by decide)
  have h5 := h "AMOUNT".data (by decide)
  have h6 := h "TIMESTAMP".data (by decide)
  have h7 := h "STATUS".data (by decide)
  have h8 := h "DESCRIPTION".data (by decide)
  rw [txtParseMap, txtParseMap,
    show kvGetU64 m "TX_ID".data = kvGetU64 m' "TX_ID".data from by
      rw [kvGetU64, kvGetU64, kvGet, kvGet, h1],
    show kvGet m "TX_TYPE".data = kvGet m' "TX_TYPE".data from by
      rw [kvGet, kvGet, h2],
    show kvGetI64 m "FROM_USER_ID".data = kvGetI64 m' "FROM_USER_ID".data from by
      rw [kvGetI64, kvGetI64, kvGet, kvGet, h3],
    show kvGetI64 m "TO_USER_ID".data = kvGetI64 m' "TO_USER_ID".data from by
      rw [kvGetI64, kvGetI64, kvGet, kvGet, h4],
    show kvGetI64 m "AMOUNT".data = kvGetI64 m' "AMOUNT".data from by
      rw [kvGetI64, kvGetI64, kvGet, kvGet, h5],
    show kvGetI64 m "TIMESTAMP".data = kvGetI64 m' "TIMESTAMP".data from by
      rw [kvGetI64, kvGetI64, kvGet, kvGet, h6],
    show kvGet m "STATUS".data = kvGet m' "STATUS".data from by
      rw [kvGet, kvGet, h7],
    show kvGet m "DESCRIPTION".data = kvGet m' "DESCRIPTION".data from by
      rw [kvGet, kvGet, h8]]

theorem mkKvLine_no_nl (jk jv : List Char) (hk : cleanJunkKey jk) (hv : cleanJunkVal jv) :
    '\n' ∉ mkKvLine jk jv := by
  intro hm
  rw [mkKvLine] at hm
  rcases List.mem_append.mp hm with hm | hm
  · exact absurd (hk.2.1 '\n' hm).1 (by decide)
  · rcases List.mem_cons.mp hm with he | hm
    · exact absurd he (by decide)
    · rcases List.mem_cons.mp hm with he | hm
      · exact absurd he (by decide)
      · exact hv.2.1 hm

theorem mkKvLine_last (jk jv : List Char) (hv : cleanJunkVal jv) :
    (mkKvLine jk jv).getLast? = jv.getLast? := by
  rw [mkKvLine, List.getLast?_append_cons,
    show (':' :: ' ' :: jv) = [':', ' '] ++ jv from rfl,
    List.getLast?_append_of_ne_nil _ hv.1]

theorem c10Lines_clean (jk jv : List Char) (hk : cleanJunkKey jk) (hv : cleanJunkVal jv) :
    ∀ l ∈ c10Lines [mkKvLine jk jv], '\n' ∉ l ∧ l.getLast? ≠ some '\r' := by
  intro l hl
  rw [c10Lines] at hl
  simp only [txtRequiredPairs, List.take, List.drop, List.map_cons, List.map_nil,
    List.append_assoc, List.cons_append, List.nil_append, List.mem_cons,
    List.not_mem_nil, or_false, List.mem_append, List.mem_singleton] at hl
  rcases hl with rfl | rfl | rfl | rfl | rfl | rfl | rfl | rfl | rfl | rfl
  · exact ⟨by decide, by decide⟩
  · exact ⟨by decide, by decide⟩
  · exact ⟨by decide, by decide⟩
  · exact ⟨by decide, by decide⟩
  · refine ⟨mkKvLine_no_nl jk jv hk hv, ?_⟩
    rw [mkKvLine_last jk jv hv]
    intro he
    have := hv.2.2.2 '\r' (by rw [he]; rfl)
    exact absurd this (by decide)
  · exact ⟨by decide, by decide⟩
  · exact ⟨by decide, by decide⟩
  · exact ⟨by decide, by decide⟩
  · exact ⟨by decide, by decide⟩
  · exact ⟨by decide, by decide⟩

theorem txtGo_c10_core (jk jv : List Char) (R : List (List Char))
    (hk : cleanJunkKey jk) (hv : cleanJunkVal jv) (hnot : jk ∉ txtRequiredKeys) :
    txtGo (c10Lines [mkKvLine jk jv] ++ R) [] = txtGo (c10Lines [] ++ R) [] := by
  obtain ⟨hkne, hkchars, hkhead⟩ := hk
  have hkey2 : ∀ c ∈ jk.head?, isWsChar c = false :=
    head?_cond (fun c hc => (hkchars c hc).1)
  have hkeyc : ':' ∉ jk := fun hm => (hkchars ':' hm).2 rfl
  have hktrim : trimChars jk = jk :=
    trimChars_eq_self _ (head?_cond (fun c hc => (hkchars c hc).1))
      (getLast?_cond (fun c hc => (hkchars c hc).1))
  have hV2 : ∀ c ∈ jv.getLast?, isWsChar c = false := hv.2.2.2
  have hshape : ∀ (mid : List (List Char)), c10Lines mid ++ R =
      ("TX_ID".data ++ ": ".data ++ "1".data) ::
      ("TX_TYPE".data ++ ": ".data ++ "DEPOSIT".data) ::
      ("FROM_USER_ID".data ++ ": ".data ++ "0".data) ::
      ("TO_USER_ID".data ++ ": ".data ++ "42".data) ::
      (mid ++ ("AMOUNT".data ++ ": ".data ++ "1000".data) ::
      ("TIMESTAMP".data ++ ": ".data ++ "123".data) ::
      ("STATUS".data ++ ": ".data ++ "SUCCESS".data) ::
      ("DESCRIPTION".data ++ ": ".data ++ "\"t\"".data) ::
      "#".data :: R) := by
    intro mid
    rw [c10Lines]
    simp [txtRequiredPairs, List.take, List.drop, List.append_assoc]
  rw [hshape [mkKvLine jk jv], hshape [], List.nil_append]
  rw [txtGo_step_insert _ _ _ "TX_ID".data (' ' :: "1".data) (by decide) (by decide)]
  rw [txtGo_step_insert _ _ _ "TX_TYPE".data (' ' :: "DEPOSIT".data) (by decide) (by decide)]
  rw [txtGo_step_insert _ _ _ "FROM_USER_ID".data (' ' :: "0".data) (by decide) (by decide)]
  rw [txtGo_step_insert _ _ _ "TO_USER_ID".data (' ' :: "42".data) (by decide) (by decide)]
  rw [List.cons_append, List.nil_append, mkKvLine,
    txtGo_step_kvline jk jv _ _ hkne hkhead hkey2 hkeyc hktrim hv.1 hV2]
  rw [txtGo_step_insert _ _ _ "AMOUNT".data (' ' :: "1000".data) (by decide) (by decide)]
  rw [txtGo_step_insert _ _ _ "TIMESTAMP".data (' ' :: "123".data) (by decide) (by decide)]
  rw [txtGo_step_insert _ _ _ "STATUS".data (' ' :: "SUCCESS".data) (by decide) (by decide)]
  rw [txtGo_step_insert _ _ _ "DESCRIPTION".data (' ' :: "\"t\"".data) (by decide) (by decide)]
  rw [txtGo_step_flush _ _ _ (by decide) (kvInsert_ne_nil _ _ _)]
  rw [txtGo_step_insert _ _ _ "TX_ID".data (' ' :: "1".data) (by decide) (by decide)]
  rw [txtGo_step_insert _ _ _ "TX_TYPE".data (' ' :: "DEPOSIT".data) (by decide) (by decide)]
  rw [txtGo_step_insert _ _ _ "FROM_USER_ID".data (' ' :: "0".data) (by decide) (by decide)]
  rw [txtGo_step_insert _ _ _ "TO_USER_ID".data (' ' :: "42".data) (by decide) (by decide)]
  rw [txtGo_step_insert _ _ _ "AMOUNT".data (' ' :: "1000".data) (by decide) (by decide)]
  rw [txtGo_step_insert _ _ _ "TIMESTAMP".data (' ' :: "123".data) (by decide) (by decide)]
  rw [txtGo_step_insert _ _ _ "STATUS".data (' ' :: "SUCCESS".data) (by decide) (by decide)]
  rw [txtGo_step_insert _ _ _ "DESCRIPTION".data (' ' :: "\"t\"".data) (by decide) (by decide)]
  rw [txtGo_step_flush _ _ _ (by decide) (kvInsert_ne_nil _ _ _)]
  rw [txtParseMap_congr _ _ (by
    intro k hkmem
    apply kvLookup_insert_congr
    apply kvLookup_insert_congr
    apply kvLookup_insert_congr
    apply kvLookup_insert_congr
    exact kvLookup_insert_ne _ _ _ _ (fun he => hnot (he ▸ hkmem)))]

/-- Claim C1: for every pair of input streams that both decode
successfully, `compare` builds an id-to-`Transaction` mapping per side and
reports, besides the two missing-id sets, a `differing` collection holding
every id present in both mappings whose two values are not structurally
equal, each entry carrying the id with the value from side one and the
value from side two; the result is `Identical` exactly when all three
collections are empty. -/
theorem C1_compare_structural_diff (f1 f2 : Fmt) (b1 b2 : List Nat)
    (l1 l2 : List Transaction)
    (h1 : readAllFmt f1 b1 = .ok l1) (h2 : readAllFmt f2 b2 = .ok l2) :
    compareStreams f1 b1 f2 b2 = .ok (compareLists l1 l2) ∧
    (∀ id tA tB, (id, tA, tB) ∈ differingOf l1 l2 ↔
      mapLookup (buildMap l1) id = some tA ∧ mapLookup (buildMap l2) id = some tB ∧
      tA ≠ tB) ∧
    (∀ id, id ∈ missingIn1Of l1 l2 ↔
      (mapLookup (buildMap l2) id).isSome ∧ mapLookup (buildMap l1) id = none) ∧
    (∀ id, id ∈ missingIn2Of l1 l2 ↔
      (mapLookup (buildMap l1) id).isSome ∧ mapLookup (buildMap l2) id = none) ∧
    (compareLists l1 l2 = .Identical ↔
      missingIn1Of l1 l2 = [] ∧ missingIn2Of l1 l2 = [] ∧ differingOf l1 l2 = []) ∧
    (compareLists l1 l2 = .Identical ∨
      compareLists l1 l2 =
        .Mismatch (missingIn1Of l1 l2) (missingIn2Of l1 l2) (differingOf l1 l2)) :=
  ⟨compareStreams_ok f1 f2 b1 b2 l1 l2 h1 h2,
   fun id tA tB => mem_differing l1 l2 id tA tB,
   fun id => mem_missingIn1 l1 l2 id,
   fun id => mem_missingIn2 l1 l2 id,
   compareLists_eq_Identical_iff l1 l2,
   compareLists_cases l1 l2⟩

theorem C1_compare_structural_diff_witness :
    compareStreams .bin (binWriteAll [tx0]) .bin (binWriteAll [tx1]) =
      .ok (compareLists [tx0] [tx1]) :=
  (C1_compare_structural_diff .bin .bin (binWriteAll [tx0]) (binWriteAll [tx1])
    [tx0] [tx1] (by decide) (by decide)).1

/-- Claim C2: for every codec and every record list representable in that
format's constraints, encoding and then decoding with the same codec
succeeds and returns a list equal to the original, field for field and in
order. -/
theorem C2_roundtrip_law (f : Fmt) (L : List Transaction)
    (h : ∀ t ∈ L, reprFmt f t) : readAllFmt f (writeAllFmt f L) = .ok L :=
  readAllFmt_writeAllFmt f L h

theorem C2_roundtrip_law_witness :
    readAllFmt .csv (writeAllFmt .csv [tx0]) = .ok [tx0] :=
  C2_roundtrip_law .csv [tx0] (by decide)

/-- Claim C3 counterexample: a stream holding one valid record followed by
a single byte of magic (a partial magic before end of stream) decodes
successfully to the accumulated sequence, not to the fatal `Io` error the
claim requires (`read_exact` reports the same `UnexpectedEof` for 0 and
for 1 to 3 available bytes, and the loop treats both as normal
termination). -/
theorem C3_partial_magic_counterexample :
    readAllFmt .bin (binWriteAll [tx0] ++ [0x59]) = .ok [tx0] := by
  decide

/-- Claim C3 (amended): in the binary decode loop, an end-of-stream at the
magic boundary with zero bytes available terminates decoding normally with
the accumulated sequence, and an end-of-stream after only 1 to 3 bytes of
the magic token also terminates decoding normally the same way. -/
theorem C3_eof_ends_decode (L : List Transaction) (tail : List Nat)
    (hL : ∀ t ∈ L, binRepr t) (htail : tail.length < 4) :
    binReadAll (binWriteAll L ++ tail) = .ok L := by
  rw [binReadAll]
  apply binReadGo_writeAll L hL _ tail htail
  have h1 := length_le_binWriteAll L
  simp only [List.length_append]
  omega

theorem C3_eof_ends_decode_witness :
    binReadAll (binWriteAll [tx0] ++ [0x59]) = .ok [tx0] :=
  C3_eof_ends_decode [tx0] [0x59] (by decide) (by decide)

/-- Claim C4: decoding a binary stream containing a record whose `descLen`
field exceeds 4096 fails with the invalid-binary-data error, whose message
names the offending length; no transaction is produced from that record. -/
theorem C4_oversized_desc_rejected (L : List Transaction) (sz dl : Nat)
    (t : Transaction) (rest : List Nat) (hL : ∀ x ∈ L, binRepr x)
    (hid : t.tx_id < 2 ^ 64) (h46 : 46 ≤ sz) (h32 : sz < 2 ^ 32)
    (hdl : 4096 < dl) (hdl32 : dl < 2 ^ 32) :
    binReadAll (binWriteAll L ++ (binRecordWithDescLen sz dl t ++ rest)) =
      .error (.InvalidBinary ("description length " ++ String.mk (natToChars dl) ++
        " exceeds maximum allowed 4096")) := by
  rw [binReadAll]
  refine binReadGo_append_error L hL _ _ ?_ _ ?_
  · intro g hg
    obtain ⟨g', rfl⟩ : ∃ g', g = g' + 1 := ⟨g - 1, by omega⟩
    exact binReadGo_oversized g' sz dl t rest hid h46 h32 hdl hdl32
  · have h1 := length_le_binWriteAll L
    simp only [List.length_append]
    omega

theorem C4_oversized_desc_rejected_witness :
    binReadAll (binWriteAll [] ++ (binRecordWithDescLen 46 4097 tx0 ++ [])) =
      .error (.InvalidBinary ("description length " ++ String.mk (natToChars 4097) ++
        " exceeds maximum allowed 4096")) :=
  C4_oversized_desc_rejected [] 46 4097 tx0 [] (by simp) (by decide) (by decide)
    (by decide) (by decide) (by decide)

/-- Claim C5 counterexample: the header row the table-text codec actually
writes is `tx_id,tx_type,from_user_id,to_user_id,amount,timestamp,status,description`,
not the claimed `id,kind,fromAccount,toAccount,amount,timestamp,status,description`. -/
theorem C5_header_names_counterexample :
    csvWriteChars [] =
      "tx_id,tx_type,from_user_id,to_user_id,amount,timestamp,status,description\n".data ∧
    "tx_id,tx_type,from_user_id,to_user_id,amount,timestamp,status,description\n".data ≠
      "id,kind,fromAccount,toAccount,amount,timestamp,status,description\n".data := by
  constructor
  · decide
  · decide

/-- Claim C5 (amended): for every record list, the table-text codec's
encode writes exactly one header row before any data row, and that header
is the fixed column list with the exact names and order
`tx_id, tx_type, from_user_id, to_user_id, amount, timestamp, status, description`. -/
theorem C5_header_row (L : List Transaction) :
    csvWriteChars L =
      "tx_id,tx_type,from_user_id,to_user_id,amount,timestamp,status,description\n".data ++
      (L.map (fun t => csvWriteRow (csvRowOf t))).flatten := by
  rw [csvWriteChars, List.map_cons, List.flatten_cons,
    show csvWriteRow csvHeader =
      ("tx_id,tx_type,from_user_id,to_user_id,amount,timestamp,status,description\n").data
      from by decide,
    List.map_map]
  rfl

/-- Claim C6: when `compare` indexes a decoded side by id and that side
contains several records with the same id, the mapping keeps the last such
record in source order, no duplicate-id error is raised, and the earlier
records with that id play no part in the comparison result. -/
theorem C6_duplicate_ids_last_write_wins :
    (∀ (L : List Transaction) (id : Nat),
      mapLookup (buildMap L) id = List.find? (fun t => t.tx_id == id) L.reverse) ∧
    (∀ (f1 f2 : Fmt) (b1 b2 : List Nat) (l1 l2 : List Transaction),
      readAllFmt f1 b1 = .ok l1 → readAllFmt f2 b2 = .ok l2 →
      compareStreams f1 b1 f2 b2 = .ok (compareLists l1 l2)) ∧
    (∀ (pre mid post : List Transaction) (t u : Transaction)
      (l2 : List Transaction), t.tx_id = u.tx_id →
      (∀ id, mapLookup (buildMap (pre ++ t :: (mid ++ u :: post))) id =
        mapLookup (buildMap (pre ++ (mid ++ u :: post))) id) ∧
      (∀ id, id ∈ missingIn2Of (pre ++ t :: (mid ++ u :: post)) l2 ↔
        id ∈ missingIn2Of (pre ++ (mid ++ u :: post)) l2) ∧
      (∀ e, e ∈ differingOf (pre ++ t :: (mid ++ u :: post)) l2 ↔
        e ∈ differingOf (pre ++ (mid ++ u :: post)) l2) ∧
      (compareLists (pre ++ t :: (mid ++ u :: post)) l2 = .Identical ↔
        compareLists (pre ++ (mid ++ u :: post)) l2 = .Identical)) := by
  refine ⟨buildMap_lastwins, ?_, ?_⟩
  · intro f1 f2 b1 b2 l1 l2 h1 h2
    exact compareStreams_ok f1 f2 b1 b2 l1 l2 h1 h2
  · intro pre mid post t u l2 hid
    have hpt := fun id => buildMap_dup_earlier pre mid post t u hid id
    obtain ⟨a, b, c, d⟩ := compare_pointwise_inv _ _ l2 hpt
    exact ⟨hpt, a, c, d⟩

theorem C6_duplicate_ids_last_write_wins_witness :
    compareLists ([] ++ tx0 :: ([] ++ tx1 :: [])) [tx1] = .Identical ↔
      compareLists ([] ++ ([] ++ tx1 :: [])) [tx1] = .Identical :=
  ((C6_duplicate_ids_last_write_wins.2.2 [] [] [] tx0 tx1 [tx1]
    (by decide)).2.2.2)

/-- Claim C7: the binary decoder never uses the declared `recordSize` to
bound or cross-validate the fixed-offset field reads: a validly encoded
record whose 4-byte `recordSize` field is replaced by any other value
passing the minimum-size check still decodes to a transaction with the
same field values. -/
theorem C7_record_size_not_validated (sz : Nat) (t : Transaction)
    (L : List Transaction) (ht : binRepr t) (hL : ∀ x ∈ L, binRepr x)
    (h46 : 46 ≤ sz) (h32 : sz < 2 ^ 32) :
    binReadAll (binRecordWithSize sz t ++ binWriteAll L) = .ok (t :: L) := by
  rw [binReadAll, binReadGo_record _ sz t _ ht h46 h32,
    show binWriteAll L = binWriteAll L ++ [] from by simp,
    binReadGo_writeAll L hL _ [] (by simp) (by
      have h1 := length_le_binWriteAll L
      have h4 : 4 ≤ (binRecordWithSize sz t).length := by
        rw [binRecordWithSize]
        simp [MAGIC, toBe_length]
      simp only [List.length_append]
      omega)]

theorem C7_record_size_not_validated_witness :
    binReadAll (binRecordWithSize 999 tx0 ++ binWriteAll []) = .ok (tx0 :: []) :=
  C7_record_size_not_validated 999 tx0 [] (by decide) (by simp) (by decide) (by decide)

/-- Claim C8: decoding a key-value block-text stream in which a block
reaches its flush point without one of the eight required keys fails with
a `Parse` error whose message is `missing field: ` followed by the missing
key's name. -/
theorem C8_missing_field_error (K : List Char) (hK : K ∈ txtRequiredKeys) :
    readAllFmt .txt (blockWithoutStream K) =
      .error (.Parse ("missing field: " ++ String.mk K)) := by
  simp only [txtRequiredKeys, txtRequiredPairs, List.map_cons, List.map_nil,
    List.mem_cons, List.not_mem_nil, or_false] at hK
  rcases hK with rfl | rfl | rfl | rfl | rfl | rfl | rfl | rfl <;> decide

theorem C8_missing_field_error_witness :
    readAllFmt .txt (blockWithoutStream "FROM_USER_ID".data) =
      .error (.Parse ("missing field: " ++ String.mk "FROM_USER_ID".data)) :=
  C8_missing_field_error "FROM_USER_ID".data (by decide)

/-- Claim C9: for every two codecs and every record list representable in
both formats, encoding the list with each codec and comparing the two
encoded streams with `compare` yields `Identical`. -/
theorem C9_cross_format_identity (f1 f2 : Fmt) (L : List Transaction)
    (h : ∀ t ∈ L, reprFmt f1 t ∧ reprFmt f2 t) :
    compareStreams f1 (writeAllFmt f1 L) f2 (writeAllFmt f2 L) = .ok .Identical := by
  rw [compareStreams_ok f1 f2 _ _ L L
    (readAllFmt_writeAllFmt f1 L (fun t ht => (h t ht).1))
    (readAllFmt_writeAllFmt f2 L (fun t ht => (h t ht).2)),
    compareLists_self]

theorem C9_cross_format_identity_witness :
    compareStreams .bin (writeAllFmt .bin [tx0]) .txt (writeAllFmt .txt [tx0]) =
      .ok .Identical :=
  C9_cross_format_identity .bin .txt [tx0] (by decide)

/-- Claim C10: in the key-value block-text codec, a `KEY: value` line
whose key is not one of the eight required keys is accepted and silently
ignored: decoding a stream containing such an extra line inside a block
succeeds and yields exactly the same transactions as decoding the stream
without it. -/
theorem C10_extra_key_ignored (junkKey junkVal : List Char) (rest : List Char)
    (hk : cleanJunkKey junkKey) (hv : cleanJunkVal junkVal)
    (hnot : junkKey ∉ txtRequiredKeys) :
    readAllFmt .txt (c10Stream [mkKvLine junkKey junkVal] rest) =
      readAllFmt .txt (c10Stream [] rest) ∧
    readAllFmt .txt (c10Stream [mkKvLine junkKey junkVal] []) = .ok [c10Tx] := by
  have main : ∀ r : List Char,
      readAllFmt .txt (c10Stream [mkKvLine junkKey junkVal] r) =
        readAllFmt .txt (c10Stream [] r) := by
    intro r
    rw [c10Stream, c10Stream, readAllFmt_txt_encode, readAllFmt_txt_encode,
      txtReadChars, txtReadChars,
      splitLines_join _ _ (c10Lines_clean junkKey junkVal hk hv),
      splitLines_join _ _ (by decide),
      txtGo_c10_core junkKey junkVal _ hk hv hnot]
  exact ⟨main rest, (main []).trans (by decide)⟩

theorem C10_extra_key_ignored_witness :
    readAllFmt .txt (c10Stream [mkKvLine "FOO".data "bar".data] []) = .ok [c10Tx] :=
  (C10_extra_key_ignored "FOO".data "bar".data [] (by decide) (by decide)
    (by decide)).2
